import Mathlib

/-
  Verification development for the PDF-processing pipeline manager
  (`src/main.py`, class `PipelineManager`).

  The Python code is shallowly embedded: the JSON state store becomes an
  association list of document records, file-system and external-service
  effects become explicit state passing over an `Env` of request/response
  oracles, and `datetime.now()` becomes an abstract clock value carried in
  the manager state (reading the clock does not mutate program state, so
  the clock field is never advanced by the embedded operations).

  The MD5-based document-id derivation (`_get_document_id`, a 12-hex-char
  truncated MD5 of the URL) is abstracted as an arbitrary function
  `docIdHash : String -> String` stored in the configuration: every claim
  under verification depends only on the fact that it is a deterministic
  function of the source locator, never on the internals of MD5.
-/

/-! ## Association lists (Python `dict` semantics: insertion order kept,
    assignment to an existing key updates in place, new keys append). -/

def alookup {A : Type} (l : List (String × A)) (k : String) : Option A :=
  match l with
  | [] => none
  | (k', v) :: t => if k' = k then some v else alookup t k

def aset {A : Type} (l : List (String × A)) (k : String) (v : A) : List (String × A) :=
  match l with
  | [] => [(k, v)]
  | (k', v') :: t => if k' = k then (k', v) :: t else (k', v') :: aset t k v

theorem alookup_aset_self {A : Type} (l : List (String × A)) (k : String) (v : A) :
    alookup (aset l k v) k = some v := by
  induction l with
  | nil => simp [aset, alookup]
  | cons h t ih =>
    by_cases hk : h.1 = k
    · simp [aset, alookup, hk]
    · simp [aset, alookup, hk, ih]

theorem alookup_aset_ne {A : Type} (l : List (String × A)) (k k' : String) (v : A)
    (h : k ≠ k') : alookup (aset l k v) k' = alookup l k' := by
  induction l with
  | nil => simp [aset, alookup, h]
  | cons hd t ih =>
    by_cases hk : hd.1 = k
    · simp [aset, alookup, hk, h]
    · simp only [aset, if_neg hk]
      by_cases hk' : hd.1 = k'
      · simp [alookup, hk']
      · simp [alookup, hk', ih]

/-! ## Statuses, steps and records (`ProcessingStatus`, the per-document
    entry created by `add_document` / `add_document_from_json`). -/

/-- `ProcessingStatus` enum from `main.py`. -/
inductive ProcessingStatus where
  | pending
  | downloaded
  | agenticProcessed
  | transformed
  | completed
  | failed
deriving DecidableEq, Repr

instance : Fintype ProcessingStatus :=
  ⟨⟨{.pending, .downloaded, .agenticProcessed, .transformed, .completed, .failed}, by decide⟩,
   by intro x; cases x <;> decide⟩

/-- The three fixed step names of the `steps` dict. -/
inductive StepName where
  | download
  | agentic_process
  | transform
deriving DecidableEq, Repr

/-- One entry of `doc["steps"]`: `{"status": ..., "timestamp": ...}`. -/
structure StepState where
  status : ProcessingStatus
  timestamp : Option Nat
deriving DecidableEq, Repr

/-- The `steps` dict with its three fixed keys. -/
structure Steps where
  download : StepState
  agentic_process : StepState
  transform : StepState
deriving DecidableEq, Repr

def Steps.get (s : Steps) : StepName → StepState
  | .download => s.download
  | .agentic_process => s.agentic_process
  | .transform => s.transform

def Steps.set (s : Steps) (n : StepName) (v : StepState) : Steps :=
  match n with
  | .download => { s with download := v }
  | .agentic_process => { s with agentic_process := v }
  | .transform => { s with transform := v }

/-- The `files` dict mapping step name to artifact path (keys optional). -/
structure FilesMap where
  download : Option String
  agentic_process : Option String
  transform : Option String
deriving DecidableEq, Repr

def FilesMap.get (f : FilesMap) : StepName → Option String
  | .download => f.download
  | .agentic_process => f.agentic_process
  | .transform => f.transform

def FilesMap.set (f : FilesMap) (n : StepName) (p : String) : FilesMap :=
  match n with
  | .download => { f with download := some p }
  | .agentic_process => { f with agentic_process := some p }
  | .transform => { f with transform := some p }

/-- One entry of `doc["errors"]` appended by `update_step_status`. -/
structure ErrorEntry where
  step : StepName
  error : String
  timestamp : Nat
deriving DecidableEq, Repr

/-- The `metadata` dict of a record.  `add_document` leaves it empty (all
    fields absent); `add_document_from_json` populates every field.  A
    Python `metadata.get(key, default)` becomes `Option.getD`. -/
structure Metadata where
  document_type : Option String
  access : Option String
  language : Option (List String)
  country : Option String
  publisher : Option String
  sectionTag : Option String
  output_folder : Option String
deriving DecidableEq, Repr

def Metadata.empty : Metadata :=
  { document_type := none, access := none, language := none, country := none,
    publisher := none, sectionTag := none, output_folder := none }

/-- One value of `state["documents"]`. -/
structure DocumentRecord where
  url : String
  original_filename : String
  metadata : Metadata
  status : ProcessingStatus
  created_at : Nat
  steps : Steps
  files : FilesMap
  errors : List ErrorEntry
deriving DecidableEq, Repr

/-- The persisted state JSON (`pipeline_state.json`). -/
structure PipelineState where
  created_at : Nat
  updated_at : Option Nat
  pipeline_version : String
  documents : List (String × DocumentRecord)
deriving DecidableEq, Repr

/-! ## Artifact shapes (`agentic_output` and `pdf_processed` JSON files). -/

/-- A persisted grounding entry (`grounding_data` in
    `process_with_agentic_doc`): each key is present only when the source
    grounding object carried the corresponding attribute. -/
structure GroundingData where
  page : Option Nat
  bbox : Option String
deriving DecidableEq, Repr

/-- A persisted non-figure chunk (`chunk_data`). -/
structure ChunkData where
  id : String
  content : String
  type : String
  grounding : Option (List GroundingData)
deriving DecidableEq, Repr

/-- A persisted figure chunk (`figure_data`). -/
structure FigureData where
  id : String
  text : String
  type : String
  grounding : Option (List GroundingData)
deriving DecidableEq, Repr

/-- `agentic_output["metadata"]`. -/
structure AgenticMeta where
  document_id : String
  source_url : String
  pdf_path : String
  processed_date : Nat
  total_chunks : Nat
  total_figures : Nat
  total_characters : Nat
deriving DecidableEq, Repr

/-- `agentic_output["document"]`. -/
structure AgenticDoc where
  id : String
  filename : String
  markdown : String
  chunks : List ChunkData
  figures : List FigureData
deriving DecidableEq, Repr

/-- The extract-stage artifact written by `process_with_agentic_doc`. -/
structure AgenticOutput where
  metadata : AgenticMeta
  document : AgenticDoc
deriving DecidableEq, Repr

/-- The JSON object shape requested from Mistral by the structuring prompt
    (`file_name`, `topics`, `languages`, `description`, `ocr_contents`);
    `ocr_contents` is an open dictionary, modelled as an association list. -/
structure PageRecord where
  file_name : String
  topics : List String
  languages : List String
  description : String
  ocr_contents : List (String × String)
deriving DecidableEq, Repr

/-- One element of `pdf_processed["content"]` (`page_obj`). -/
structure PageObj where
  page_number : Nat
  text : String
  structured_page_content : PageRecord
  structured_image_content : List PageRecord
  text_embedding : List Nat
deriving DecidableEq, Repr

/-- `pdf_processed["metadata"]`. -/
structure PdfMeta where
  document_name : String
  total_pages : Nat
  document_type : String
  source : String
  processing_stack : List String
  processed_date : Nat
  country : String
  publisher : String
  sectionTag : String
  access : String
  language : List String
  total_chunks : Nat
  total_figures : Nat
deriving DecidableEq, Repr

/-- The structure-stage artifact written by `transform_to_pdf_processed`. -/
structure PdfProcessed where
  metadata : PdfMeta
  content : List PageObj
deriving DecidableEq, Repr

/-- Contents of a file on the modelled filesystem.  `truncated` stands for
    the partially-written bytes left behind when an exception interrupts a
    `json.dump` into an already-opened file. -/
inductive FileContent where
  | pdf (bytes : String)
  | agentic (a : AgenticOutput)
  | processed (p : PdfProcessed)
  | truncated (s : String)
deriving DecidableEq, Repr

/-- The filesystem: a mapping from path to file content. -/
structure FS where
  entries : List (String × FileContent)
deriving DecidableEq, Repr

def FS.read (fs : FS) (p : String) : Option FileContent :=
  alookup fs.entries p

def FS.write (fs : FS) (p : String) (c : FileContent) : FS :=
  ⟨aset fs.entries p c⟩

/-! ## External collaborators and the manager state. -/

/-- Result of `open(path, "w")` followed by `json.dump(obj, f)`: either the
    full serialized object lands at the path, or an exception is raised
    partway (serialization error, disk error) leaving whatever prefix was
    already flushed.  Python's `json.dump` streams into the file handle, so
    an exception leaves a truncated file behind at the path. -/
inductive WriteOutcome where
  | success
  | failMid (written : String) (msg : String)
deriving DecidableEq, Repr

/-- Raw grounding object as returned by the agentic-doc service (the
    `page` / `box` attributes may be absent). -/
structure Grounding where
  page : Option Nat
  box : Option String
deriving DecidableEq, Repr

/-- Raw chunk as returned by the agentic-doc service.  `text` is absent
    when the object has no `text` attribute; `reprStr` is its `str(...)`
    rendering used as the fallback content. -/
structure RawChunk where
  text : Option String
  reprStr : String
  chunk_type : String
  grounding : List Grounding
deriving DecidableEq, Repr

/-- Raw per-document result of `agentic_doc.parse`. -/
structure ParseDoc where
  markdown : Option String
  chunks : List RawChunk
deriving DecidableEq, Repr

/-- Request/response oracles for the external collaborators.  An
    `Except.error` models the call raising an exception. -/
structure Env where
  httpGet : String → Except String String
  agenticParse : String → Except String (List ParseDoc)
  chatJson : String → Except String PageRecord
  writeAgentic : AgenticOutput → WriteOutcome
  writeProcessed : PdfProcessed → WriteOutcome

/-- Stage-executor invocation events, recorded at the entry of each of the
    three stage methods. -/
inductive Event where
  | downloadInvoked (doc_id : String)
  | agenticInvoked (doc_id : String)
  | transformInvoked (doc_id : String)
deriving DecidableEq, Repr

def Event.docId : Event → String
  | .downloadInvoked i => i
  | .agenticInvoked i => i
  | .transformInvoked i => i

/-- Immutable configuration of a `PipelineManager` instance. -/
structure Config where
  work_dir : String
  docIdHash : String → String

/-- The full mutable world of a run: the in-memory state dict, the on-disk
    copy of the state file (`none` until first saved), the artifact
    filesystem, the ambient clock, and the invocation trace. -/
structure MgrState where
  cfg : Config
  mem : PipelineState
  disk : Option PipelineState
  fs : FS
  clock : Nat
  trace : List Event

/-! ## State store and registry operations. -/

/-- `_save_state`: stamp `updated_at` and write the full mapping to disk. -/
def saveState (m : MgrState) : MgrState :=
  let mem' := { m.mem with updated_at := some m.clock }
  { m with mem := mem', disk := some mem' }

/-! Python string primitives, re-implemented structurally over the
    character list of a `String` (mirroring `str.lower`, `in`, `endswith`,
    `strip`, slicing, `join`, `split` and `rsplit` as used by the source). -/

/-- `s.lower()`. -/
def lowerS (s : String) : String :=
  ⟨s.data.map Char.toLower⟩

/-- Does `pat` start the list `s`? -/
def startsWithL (pat s : List Char) : Bool :=
  match pat, s with
  | [], _ => true
  | _ :: _, [] => false
  | p :: ps, c :: cs => p == c && startsWithL ps cs

/-- Does `pat` occur inside `s`? -/
def containsSub (s pat : List Char) : Bool :=
  match s with
  | [] => pat.isEmpty
  | _ :: cs => startsWithL pat s || containsSub cs pat

/-- Substring test (Python `pat in s`). -/
def hasSubstr (s pat : String) : Bool :=
  containsSub s.data pat.data

/-- `s.endswith(pat)`. -/
def endsWithS (s pat : String) : Bool :=
  startsWithL pat.data.reverse s.data.reverse

/-- `s.strip()`. -/
def trimS (s : String) : String :=
  ⟨((s.data.dropWhile Char.isWhitespace).reverse.dropWhile Char.isWhitespace).reverse⟩

/-- `s[:n]`. -/
def takeS (s : String) (n : Nat) : String :=
  ⟨s.data.take n⟩

/-- `sep.join(parts)`. -/
def joinS (sep : String) : List String → String
  | [] => ""
  | [x] => x
  | x :: y :: xs => x ++ sep ++ joinS sep (y :: xs)

/-- Strip `pat` from the front of `s` when it is a prefix. -/
def dropPrefixL (pat s : List Char) : Option (List Char) :=
  match pat, s with
  | [], rest => some rest
  | _ :: _, [] => none
  | p :: ps, c :: cs => if p = c then dropPrefixL ps cs else none

/-- Fuel-driven splitting worker (the fuel is an upper bound on the number
    of characters still to be consumed, so it never runs out). -/
def splitAuxL (sep : List Char) : Nat → List Char → List Char → List (List Char)
  | 0, acc, rest => [acc.reverse ++ rest]
  | _ + 1, acc, [] => [acc.reverse]
  | fuel + 1, acc, c :: cs =>
    match dropPrefixL sep (c :: cs) with
    | some rest => acc.reverse :: splitAuxL sep fuel [] rest
    | none => splitAuxL sep fuel (c :: acc) cs

/-- `s.split(sep)` for a non-empty separator (Python raises on an empty
    separator; `String.splitOn` returns `[s]`, kept here). -/
def splitOnS (s sep : String) : List String :=
  if sep.data.isEmpty then [s]
  else (splitAuxL sep.data (s.data.length + 1) [] s.data).map (fun l => ⟨l⟩)

/-- `s.rsplit(".", 1)[0]`: everything before the last dot (the whole string
    when there is no dot). -/
def dropLastExt (s : String) : String :=
  match s.data.reverse.dropWhile (fun c => ¬ (c = '.')) with
  | [] => s
  | _ :: rest => ⟨rest.reverse⟩

/-- `_get_filename_from_url`: last path segment of the URL, `.pdf`-suffixed;
    a generated name when the path has no final segment.  The `urlparse`
    path extraction is reproduced for the common URL shapes: strip fragment
    and query, strip `scheme://authority` when present. -/
def getFilenameFromUrl (now : Nat) (url : String) : String :=
  let s := (splitOnS url "#").headD ""
  let s := (splitOnS s "?").headD ""
  let path :=
    match splitOnS s "://" with
    | [] => ""
    | [onlyPath] => onlyPath
    | _scheme :: rest =>
      let r := joinS "://" rest
      match splitOnS r "/" with
      | [] => ""
      | _host :: tail => if tail.isEmpty then "" else "/" ++ joinS "/" tail
  let filename := (splitOnS path "/").getLastD ""
  if filename = "" then "document_" ++ toString now ++ ".pdf"
  else if endsWithS (lowerS filename) ".pdf" then filename
  else filename ++ ".pdf"

/-- The fresh `steps` dict of a newly registered record. -/
def initialSteps : Steps :=
  { download := { status := .pending, timestamp := none },
    agentic_process := { status := .pending, timestamp := none },
    transform := { status := .pending, timestamp := none } }

/-- `add_document`: register a bare URL.  Returns the (possibly existing)
    document id. -/
def add_document (m : MgrState) (url : String) (doc_id? : Option String)
    (original_filename? : Option String) : MgrState × String :=
  let doc_id := doc_id?.getD (m.cfg.docIdHash url)
  let original_filename := original_filename?.getD (getFilenameFromUrl m.clock url)
  match alookup m.mem.documents doc_id with
  | some _ => (m, doc_id)
  | none =>
    let rec0 : DocumentRecord :=
      { url := url, original_filename := original_filename, metadata := Metadata.empty,
        status := .pending, created_at := m.clock, steps := initialSteps,
        files := { download := none, agentic_process := none, transform := none },
        errors := [] }
    let mem' := { m.mem with documents := aset m.mem.documents doc_id rec0 }
    (saveState { m with mem := mem' }, doc_id)

/-- A document descriptor from the batch-input JSON array. -/
structure DocInfo where
  source : Option String
  name : Option String
  document_type : Option String
  access : Option String
  language : Option (List String)
  country : Option String
  publisher : Option String
  sectionTag : Option String
  output_folder : Option String
deriving Repr

/-- `add_document_from_json`: register a structured descriptor; `none`
    models the Python `return None` on a missing `source` or `name`. -/
def add_document_from_json (m : MgrState) (info : DocInfo) : MgrState × Option String :=
  match info.source with
  | none => (m, none)
  | some url =>
    match info.name with
    | none => (m, none)
    | some name0 =>
      let original_filename :=
        if endsWithS (lowerS name0) ".pdf" then name0 else name0 ++ ".pdf"
      let doc_id := m.cfg.docIdHash url
      match alookup m.mem.documents doc_id with
      | some _ => (m, some doc_id)
      | none =>
        let rec0 : DocumentRecord :=
          { url := url, original_filename := original_filename,
            metadata :=
              { document_type := some (info.document_type.getD "AIP"),
                access := some (info.access.getD "public"),
                language := some (info.language.getD ["english", "spanish"]),
                country := some (info.country.getD "unknown"),
                publisher := some (info.publisher.getD "unknown"),
                sectionTag := some (info.sectionTag.getD "GEN"),
                output_folder := some (info.output_folder.getD "") },
            status := .pending, created_at := m.clock, steps := initialSteps,
            files := { download := none, agentic_process := none, transform := none },
            errors := [] }
        let mem' := { m.mem with documents := aset m.mem.documents doc_id rec0 }
        (saveState { m with mem := mem' }, some doc_id)

/-- The inline overall-status recomputation at the end of
    `update_step_status` (`old` is returned unchanged when no branch of the
    `if`/`elif` chain applies). -/
def overallFrom (old d a t : ProcessingStatus) : ProcessingStatus :=
  let l := [d, a, t]
  if l.all (· == .completed) then .completed
  else if l.any (· == .failed) then .failed
  else if l.all (fun s => s == .pending || s == .completed) then
    (if l.contains .pending then .pending else .downloaded)
  else old

/-- `update_step_status`.  The Python raises `ValueError` on an unknown id;
    that branch performs no state change and is modelled as the identity
    (every caller in the source guards against it). -/
def update_step_status (m : MgrState) (doc_id : String) (step : StepName)
    (status : ProcessingStatus) (file_path : Option String) (error : Option String) :
    MgrState :=
  match alookup m.mem.documents doc_id with
  | none => m
  | some doc =>
    let steps' := doc.steps.set step { status := status, timestamp := some m.clock }
    let files' :=
      match file_path with
      | some p => if p = "" then doc.files else doc.files.set step p
      | none => doc.files
    let errors' :=
      match error with
      | some e => if e = "" then doc.errors
                  else doc.errors ++ [{ step := step, error := e, timestamp := m.clock }]
      | none => doc.errors
    let status' := overallFrom doc.status steps'.download.status
      steps'.agentic_process.status steps'.transform.status
    let doc' := { doc with
      steps := steps', files := files', errors := errors', status := status' }
    saveState { m with mem := { m.mem with documents := aset m.mem.documents doc_id doc' } }

/-! ## Stage executors. -/

/-- Push a stage-invocation event on the trace. -/
def pushEvent (m : MgrState) (e : Event) : MgrState :=
  { m with trace := m.trace ++ [e] }

/-- The directory-triple computation of `_get_output_dirs` for a known
    record (the `ValueError` branch for a missing record is handled at the
    call sites, which look the record up first; `mkdir` side effects are
    not modelled). -/
def outputDirsFor (work_dir : String) (doc : DocumentRecord) : String × String × String :=
  let output_folder := doc.metadata.output_folder.getD ""
  if output_folder ≠ "" then
    (work_dir ++ "/" ++ output_folder ++ "/pdfs",
     work_dir ++ "/" ++ output_folder ++ "/agentic_outputs",
     work_dir ++ "/" ++ output_folder ++ "/pdf_processed")
  else
    (work_dir ++ "/pdfs", work_dir ++ "/agentic_outputs", work_dir ++ "/pdf_processed")

/-- `download_pdf`: fetch the source into the pdfs directory, with the
    idempotent skip when the file already exists. -/
def download_pdf (env : Env) (m0 : MgrState) (doc_id : String) : MgrState × Bool :=
  let m := pushEvent m0 (.downloadInvoked doc_id)
  match alookup m.mem.documents doc_id with
  | none => (m, false)
  | some doc =>
    let url := doc.url
    let filename := doc.original_filename
    let dirs := outputDirsFor m.cfg.work_dir doc
    let pdf_path := dirs.1 ++ "/" ++ filename
    if (m.fs.read pdf_path).isSome then
      (update_step_status m doc_id .download .completed (some pdf_path) none, true)
    else
      match env.httpGet url with
      | .ok content =>
        let m1 := { m with fs := m.fs.write pdf_path (.pdf content) }
        (update_step_status m1 doc_id .download .completed (some pdf_path) none, true)
      | .error e =>
        (update_step_status m doc_id .download .failed none
          (some ("Error descargando PDF: " ++ e)), false)

/-- Conversion of one raw grounding into its persisted form: the page is
    shifted from the service's 0-indexed convention to 1-indexed. -/
def groundingData (g : Grounding) : GroundingData :=
  { page := g.page.map (· + 1), bbox := g.box }

/-- The `grounding` key of a persisted chunk/figure: present exactly when
    the raw chunk carried a non-empty grounding list. -/
def groundingOpt (gs : List Grounding) : Option (List GroundingData) :=
  if gs.isEmpty then none else some (gs.map groundingData)

/-- `"figure" in str(chunk.chunk_type).lower()`. -/
def isFigureChunk (c : RawChunk) : Bool :=
  hasSubstr (lowerS c.chunk_type) "figure"

/-- The `chunk_data` dict built for the i-th enumerated non-figure chunk. -/
def mkChunkData (i : Nat) (c : RawChunk) : ChunkData :=
  { id := "chunk_" ++ toString i, content := c.text.getD c.reprStr,
    type := c.chunk_type, grounding := groundingOpt c.grounding }

/-- The `figure_data` dict built for the i-th figure chunk. -/
def mkFigureData (i : Nat) (c : RawChunk) : FigureData :=
  { id := "figure_" ++ toString i, text := c.text.getD "",
    type := c.chunk_type, grounding := groundingOpt c.grounding }

/-- The `agentic_output` object assembled by `process_with_agentic_doc`
    from the parse result (chunk ids use the enumeration index over all
    chunks; figure ids re-enumerate the figure sublist). -/
def buildAgenticOutput (doc_id : String) (doc : DocumentRecord) (pdf_path : String)
    (result : List ParseDoc) (now : Nat) : AgenticOutput :=
  let triple : String × List ChunkData × List RawChunk :=
    match result with
    | [] => ("", ([] : List ChunkData), ([] : List RawChunk))
    | docRes :: _ =>
      let md := docRes.markdown.getD ""
      let chunksL := (docRes.chunks.enum.filter (fun p => ! isFigureChunk p.2)).map
        (fun p => mkChunkData p.1 p.2)
      let figs := docRes.chunks.filter isFigureChunk
      (md, chunksL, figs)
  let markdown := triple.1
  let chunksList := triple.2.1
  let figureChunks := triple.2.2
  let figures := figureChunks.enum.map (fun p => mkFigureData p.1 p.2)
  { metadata :=
      { document_id := doc_id, source_url := doc.url, pdf_path := pdf_path,
        processed_date := now, total_chunks := chunksList.length,
        total_figures := figureChunks.length, total_characters := markdown.length },
    document :=
      { id := doc_id, filename := doc.original_filename, markdown := markdown,
        chunks := chunksList, figures := figures } }

/-- `process_with_agentic_doc`: run the extraction service and persist the
    extract artifact, with the idempotent skip when the output file already
    exists.  A `failMid` write outcome models `json.dump` raising after the
    output file has been opened and partially written. -/
def process_with_agentic_doc (env : Env) (m0 : MgrState) (doc_id : String) :
    MgrState × Bool :=
  let m := pushEvent m0 (.agenticInvoked doc_id)
  match alookup m.mem.documents doc_id with
  | none => (m, false)
  | some doc =>
    if doc.steps.download.status ≠ .completed then (m, false)
    else
      let pdf_path := (doc.files.get .download).getD ""
      let dirs := outputDirsFor m.cfg.work_dir doc
      let base := dropLastExt doc.original_filename
      let output_json_path := dirs.2.1 ++ "/" ++ base ++ ".json"
      if (m.fs.read output_json_path).isSome then
        (update_step_status m doc_id .agentic_process .completed (some output_json_path) none,
         true)
      else
        match env.agenticParse pdf_path with
        | .error e =>
          (update_step_status m doc_id .agentic_process .failed none
            (some ("Error procesando con Agentic-doc: " ++ e)), false)
        | .ok result =>
          let out := buildAgenticOutput doc_id doc pdf_path result m.clock
          match env.writeAgentic out with
          | .success =>
            let m1 := { m with fs := m.fs.write output_json_path (.agentic out) }
            (update_step_status m1 doc_id .agentic_process .completed
              (some output_json_path) none, true)
          | .failMid written e =>
            let m1 := { m with fs := m.fs.write output_json_path (.truncated written) }
            (update_step_status m1 doc_id .agentic_process .failed none
              (some ("Error procesando con Agentic-doc: " ++ e)), false)

/-! ## Structure stage (`transform_to_pdf_processed` and the Mistral
    helpers). -/

/-- Tail shared by the page and image structuring prompts. -/
def promptTail : String :=
  "Convert this into a structured JSON response with the following fields:\n" ++
  "- file_name: string\n- topics: list of strings\n- languages: list of strings\n" ++
  "- description: string\n- ocr_contents: dictionary with the main extracted information\n" ++
  "Respond only with the JSON object."

/-- The page-structuring prompt sent to Mistral. -/
def pagePrompt (page_text : String) : String :=
  "This is the pages OCR in markdown:\n====MARKDOWN====\n" ++ page_text ++
  "\n====END MARKDOWN====\n" ++ promptTail

/-- The image-structuring prompt sent to Mistral. -/
def imagePrompt (image_text : String) : String :=
  "This is the image OCR in markdown:\n====MARKDOWN====\n" ++ image_text ++
  "\n====END MARKDOWN====\n" ++ promptTail

/-- The fixed record substituted for a blank page without calling the
    service. -/
def emptyPageRecord (doc_name : String) (dm : Metadata) : PageRecord :=
  { file_name := doc_name, topics := ["aviation", "navigation", "charts"],
    languages := dm.language.getD ["english", "spanish"],
    description := "Empty page", ocr_contents := [] }

/-- The fallback record returned when the page-structuring call raises. -/
def fallbackPageRecord (doc_name : String) (page_text : String) (dm : Metadata) :
    PageRecord :=
  { file_name := doc_name, topics := ["aviation", "navigation", "charts"],
    languages := dm.language.getD ["english", "spanish"],
    description := "Page content from aeronautical document",
    ocr_contents := [("raw_content", takeS page_text 500)] }

/-- The fallback record returned when the image-structuring call raises. -/
def fallbackImageRecord (image_text : String) (index page_num : Nat) (dm : Metadata) :
    PageRecord :=
  { file_name := "imagen_p" ++ toString page_num ++ "_i" ++ toString index ++ ".jpg",
    topics := ["aeronautical_charts", "navigation"],
    languages := dm.language.getD ["english", "spanish"],
    description := "Image from aeronautical document",
    ocr_contents := [("raw_content", takeS image_text 200)] }

/-- `_mistral_structure_page` (`source_url` is accepted but unused, as in
    the source).  The oracle's `Except.error` covers both an exception from
    `chat.complete` and one from `json.loads` on its reply. -/
def mistral_structure_page (env : Env) (doc_name page_text : String) (dm : Metadata)
    (_source_url : String) : PageRecord :=
  if trimS page_text = "" then emptyPageRecord doc_name dm
  else
    match env.chatJson (pagePrompt page_text) with
    | .ok r => r
    | .error _ => fallbackPageRecord doc_name page_text dm

/-- `_mistral_structure_image`: `none` for blank figure text (no record at
    all), otherwise the service's record or the fallback. -/
def mistral_structure_image (env : Env) (image_text : String) (index page_num : Nat)
    (dm : Metadata) : Option PageRecord :=
  if trimS image_text = "" then none
  else
    match env.chatJson (imagePrompt image_text) with
    | .ok r => some r
    | .error _ => some (fallbackImageRecord image_text index page_num dm)

/-- The pages a chunk is grouped under: each grounding's `page` value
    (default 1 for a grounding without a page), or page 1 when the chunk
    has no grounding. -/
def chunkPages (c : ChunkData) : List Nat :=
  let g := c.grounding.getD []
  if g.isEmpty then [1] else g.map (fun gd => gd.page.getD 1)

/-- The pages a figure is grouped under (same rule as `chunkPages`). -/
def figPages (f : FigureData) : List Nat :=
  let g := f.grounding.getD []
  if g.isEmpty then [1] else g.map (fun gd => gd.page.getD 1)

/-- `pages_dict.get(n, [])`: the chunks grouped under page `n`, in original
    chunk order, one occurrence per grounding hitting that page. -/
def pageChunks (chunks : List ChunkData) (n : Nat) : List ChunkData :=
  chunks.flatMap (fun c => ((chunkPages c).filter (· == n)).map (fun _ => c))

/-- `figures_dict.get(n, [])` for figures. -/
def pageFigures (figures : List FigureData) (n : Nat) : List FigureData :=
  figures.flatMap (fun f => ((figPages f).filter (· == n)).map (fun _ => f))

/-- `max(pages_dict.keys()) if pages_dict else 1`: the keys of `pages_dict`
    are exactly the pages contributed by the chunks (every chunk
    contributes at least one), so the dict is empty iff there are no
    chunks. -/
def totalPagesOf (chunks : List ChunkData) : Nat :=
  let ps := chunks.flatMap chunkPages
  if ps.isEmpty then 1 else ps.foldl Nat.max 0

/-- The newline-joined raw text of a page. -/
def pageTextOf (chunks : List ChunkData) (n : Nat) : String :=
  joinS "\n" ((pageChunks chunks n).map (·.content))

/-- The per-page object built inside the `_mistral_transform` loop. -/
def transformPageObj (env : Env) (doc_name : String) (dm : Metadata)
    (source_url : String) (chunks : List ChunkData) (figures : List FigureData)
    (page_num : Nat) : PageObj :=
  let page_text := pageTextOf chunks page_num
  let structured_page := mistral_structure_page env doc_name page_text dm source_url
  let page_figures := pageFigures figures page_num
  let structured_images := page_figures.enum.filterMap
    (fun p => mistral_structure_image env p.2.text p.1 page_num dm)
  { page_number := page_num, text := page_text,
    structured_page_content := structured_page,
    structured_image_content := structured_images, text_embedding := [] }

/-- `_mistral_transform`: regroup the extract artifact by page and build
    the final `pdf_processed` object. -/
def mistral_transform (env : Env) (_doc_id : String) (aj : AgenticOutput)
    (doc : DocumentRecord) (now : Nat) : PdfProcessed :=
  let dm := doc.metadata
  let doc_name := dropLastExt doc.original_filename
  let source_url := aj.metadata.source_url
  let chunks := aj.document.chunks
  let figures := aj.document.figures
  let total_pages := totalPagesOf chunks
  let content := (List.range total_pages).map
    (fun k => transformPageObj env doc_name dm source_url chunks figures (k + 1))
  { metadata :=
      { document_name := doc_name, total_pages := total_pages,
        document_type := dm.document_type.getD "AIP", source := source_url,
        processing_stack := ["agentic-doc", "mistral-codestral"], processed_date := now,
        country := dm.country.getD "unknown", publisher := dm.publisher.getD "unknown",
        sectionTag := dm.sectionTag.getD "GEN", access := dm.access.getD "public",
        language := dm.language.getD ["english", "spanish"],
        total_chunks := chunks.length, total_figures := figures.length },
    content := content }

/-- `json.load` of the extract artifact inside `transform_to_pdf_processed`:
    anything other than a well-formed agentic artifact at the path raises
    (missing file, or a truncated/non-JSON file). -/
def readAgentic (fs : FS) (p : String) : Except String AgenticOutput :=
  match fs.read p with
  | some (.agentic a) => .ok a
  | some _ => .error "invalid agentic artifact"
  | none => .error "file not found"

/-- The tail of the transform success path: `doc["status"] =
    ProcessingStatus.COMPLETED` on the freshly updated record followed by
    `_save_state()`. -/
def setStatusCompletedAndSave (m : MgrState) (doc_id : String) : MgrState :=
  match alookup m.mem.documents doc_id with
  | none => m
  | some doc =>
    let doc' := { doc with status := .completed }
    saveState { m with mem := { m.mem with documents := aset m.mem.documents doc_id doc' } }

/-- `transform_to_pdf_processed`: build and persist the structure-stage
    artifact, with the idempotent skip when it already exists.  The Python
    `if not pdf_processed` guard is dead code (`_mistral_transform` always
    returns a non-empty dict) and is not modelled. -/
def transform_to_pdf_processed (env : Env) (m0 : MgrState) (doc_id : String) :
    MgrState × Bool :=
  let m := pushEvent m0 (.transformInvoked doc_id)
  match alookup m.mem.documents doc_id with
  | none => (m, false)
  | some doc =>
    if doc.steps.agentic_process.status ≠ .completed then (m, false)
    else
      let agentic_json_path := (doc.files.get .agentic_process).getD ""
      let dirs := outputDirsFor m.cfg.work_dir doc
      let base := dropLastExt doc.original_filename
      let pdf_processed_path := dirs.2.2 ++ "/" ++ base ++ ".json"
      if (m.fs.read pdf_processed_path).isSome then
        (update_step_status m doc_id .transform .completed (some pdf_processed_path) none,
         true)
      else
        match readAgentic m.fs agentic_json_path with
        | .error e =>
          (update_step_status m doc_id .transform .failed none
            (some ("Error transformando: " ++ e)), false)
        | .ok aj =>
          let pp := mistral_transform env doc_id aj doc m.clock
          match env.writeProcessed pp with
          | .success =>
            let m1 := { m with fs := m.fs.write pdf_processed_path (.processed pp) }
            let m2 := update_step_status m1 doc_id .transform .completed
              (some pdf_processed_path) none
            (setStatusCompletedAndSave m2 doc_id, true)
          | .failMid written e =>
            let m1 := { m with fs := m.fs.write pdf_processed_path (.truncated written) }
            (update_step_status m1 doc_id .transform .failed none
              (some ("Error transformando: " ++ e)), false)

/-! ## Orchestrators. -/

/-- One entry of `results["documents"]`. -/
structure RunEntry where
  status : String
  step : Option String
  recovered : Bool
deriving DecidableEq, Repr

/-- The per-document body of the `process_all_documents` loop (bare-URL
    orchestrator): run the three stages in order, stopping at the first
    failure.  There is no completed-document short-circuit in this loop. -/
def processOneBare (env : Env) (st : MgrState × List (String × RunEntry))
    (doc_id : String) : MgrState × List (String × RunEntry) :=
  let m := st.1
  let res := st.2
  let r1 := download_pdf env m doc_id
  if ! r1.2 then
    (r1.1, aset res doc_id { status := "failed", step := some "download", recovered := false })
  else
    let r2 := process_with_agentic_doc env r1.1 doc_id
    if ! r2.2 then
      (r2.1, aset res doc_id
        { status := "failed", step := some "agentic_process", recovered := false })
    else
      let r3 := transform_to_pdf_processed env r2.1 doc_id
      if ! r3.2 then
        (r3.1, aset res doc_id
          { status := "failed", step := some "transform", recovered := false })
      else
        (r3.1, aset res doc_id { status := "completed", step := none, recovered := false })

/-- The registration step of `process_all_documents` (the list
    comprehension `[self.add_document(url) for url in urls]`). -/
def regStepBare (acc : MgrState × List String) (url : String) : MgrState × List String :=
  let r := add_document acc.1 url none none
  (r.1, acc.2 ++ [r.2])

/-- `process_all_documents`: register every URL, then run every document
    through the three stages. -/
def process_all_documents (env : Env) (m0 : MgrState) (urls : List String) :
    MgrState × List (String × RunEntry) :=
  let reg := urls.foldl regStepBare (m0, [])
  reg.2.foldl (processOneBare env) (reg.1, [])

/-- `results` entry for a stage failure. -/
def runFailed (stepName : String) : RunEntry :=
  { status := "failed", step := some stepName, recovered := false }

/-- `results` entry for a fully processed document. -/
def runCompleted : RunEntry :=
  { status := "completed", step := none, recovered := false }

/-- `results` entry for a document skipped as already Completed. -/
def runRecovered : RunEntry :=
  { status := "completed", step := none, recovered := true }

/-- The transform leg of the `process_all_documents_from_json` loop body:
    re-read the live record, run the transform stage unless its step is
    already Completed, and record the outcome. -/
def stepTransformJson (env : Env) (st : MgrState × List (String × RunEntry))
    (doc_id : String) : MgrState × List (String × RunEntry) :=
  match alookup st.1.mem.documents doc_id with
  | none => st
  | some doc2 =>
    let r3 :=
      if doc2.steps.transform.status ≠ .completed then
        transform_to_pdf_processed env st.1 doc_id
      else (st.1, true)
    if ! r3.2 then (r3.1, aset st.2 doc_id (runFailed "transform"))
    else (r3.1, aset st.2 doc_id runCompleted)

/-- The extract leg of the loop body, continuing into the transform leg on
    success. -/
def stepAgenticJson (env : Env) (st : MgrState × List (String × RunEntry))
    (doc_id : String) : MgrState × List (String × RunEntry) :=
  match alookup st.1.mem.documents doc_id with
  | none => st
  | some doc1 =>
    let r2 :=
      if doc1.steps.agentic_process.status ≠ .completed then
        process_with_agentic_doc env st.1 doc_id
      else (st.1, true)
    if ! r2.2 then (r2.1, aset st.2 doc_id (runFailed "agentic_process"))
    else stepTransformJson env (r2.1, st.2) doc_id

/-- The per-document body of the `process_all_documents_from_json` loop:
    skip a fully completed document, otherwise run exactly the stages whose
    step status is not yet Completed, stopping at the first failure.  The
    Python reads the live record dict, so each step guard sees the effects
    of the previous step; this is modelled by re-reading the store before
    each leg. -/
def processOneFromJson (env : Env) (st : MgrState × List (String × RunEntry))
    (doc_id : String) : MgrState × List (String × RunEntry) :=
  match alookup st.1.mem.documents doc_id with
  | none => st
  | some doc0 =>
    if doc0.status = .completed then (st.1, aset st.2 doc_id runRecovered)
    else
      let r1 :=
        if doc0.steps.download.status ≠ .completed then download_pdf env st.1 doc_id
        else (st.1, true)
      if ! r1.2 then (r1.1, aset st.2 doc_id (runFailed "download"))
      else stepAgenticJson env (r1.1, st.2) doc_id

/-- The registration step of `process_all_documents_from_json` (one turn
    of its first loop, dropping descriptors `add_document_from_json`
    rejects). -/
def regStepJson (acc : MgrState × List String) (info : DocInfo) : MgrState × List String :=
  match add_document_from_json acc.1 info with
  | (m', some doc_id) => (m', acc.2 ++ [doc_id])
  | (m', none) => (m', acc.2)

/-- `process_all_documents_from_json`: register every descriptor (dropping
    the ones rejected by `add_document_from_json`), then run the loop over
    the registered ids. -/
def process_all_documents_from_json (env : Env) (m0 : MgrState) (docs : List DocInfo) :
    MgrState × List (String × RunEntry) :=
  let reg := docs.foldl regStepJson (m0, [])
  reg.2.foldl (processOneFromJson env) (reg.1, [])

/-! ## Helper lemmas. -/

/-- The statuses `update_step_status` is ever invoked with by this code
    base (`download_pdf`, `process_with_agentic_doc`,
    `transform_to_pdf_processed` pass only `COMPLETED`, `FAILED`, and
    records are created with `PENDING`). -/
def S3 (s : ProcessingStatus) : Prop :=
  s = .pending ∨ s = .completed ∨ s = .failed

instance (s : ProcessingStatus) : Decidable (S3 s) := by
  unfold S3
  infer_instance

theorem saveState_documents (m : MgrState) :
    (saveState m).mem.documents = m.mem.documents := rfl

theorem overallFrom_derivation :
    ∀ old d a t : ProcessingStatus, S3 d → S3 a → S3 t →
      ((overallFrom old d a t = .completed ↔
          (d = .completed ∧ a = .completed ∧ t = .completed)) ∧
       (overallFrom old d a t = .failed ↔
          (d = .failed ∨ a = .failed ∨ t = .failed)) ∧
       (¬(d = .failed ∨ a = .failed ∨ t = .failed) →
        (d = .pending ∨ a = .pending ∨ t = .pending) →
        (overallFrom old d a t = .pending ∨ overallFrom old d a t = .downloaded))) := by
  decide

/-- A concrete record and manager state used by the witnesses below. -/
def sampleDoc : DocumentRecord :=
  { url := "http://h/a.pdf", original_filename := "a.pdf", metadata := Metadata.empty,
    status := .pending, created_at := 0, steps := initialSteps,
    files := { download := none, agentic_process := none, transform := none },
    errors := [] }

def sampleMgr : MgrState :=
  { cfg := { work_dir := "work", docIdHash := fun _ => "d1" },
    mem := { created_at := 0, updated_at := none, pipeline_version := "1.0",
             documents := [("d1", sampleDoc)] },
    disk := none, fs := ⟨[]⟩, clock := 5, trace := [] }

/-! ## Claim C1: derived overall status. -/

/-- Claim C1: after any call to `update_step_status` on an existing record
    whose (new) step statuses all lie in the set actually used by the code
    (Pending/Completed/Failed), the record's overall status satisfies the
    derivation rule: Completed iff all three steps are Completed, Failed
    iff some step is Failed, and otherwise (no Failed step, at least one
    Pending step) it is Pending or Downloaded. -/
theorem claim_C1 (m : MgrState) (doc_id : String) (step : StepName)
    (status : ProcessingStatus) (fp err : Option String) (doc : DocumentRecord)
    (hdoc : alookup m.mem.documents doc_id = some doc)
    (hs : S3 status) (hd : S3 doc.steps.download.status)
    (ha : S3 doc.steps.agentic_process.status) (ht : S3 doc.steps.transform.status) :
    ∃ doc',
      alookup (update_step_status m doc_id step status fp err).mem.documents doc_id
        = some doc' ∧
      ((doc'.status = .completed ↔
          (doc'.steps.download.status = .completed ∧
           doc'.steps.agentic_process.status = .completed ∧
           doc'.steps.transform.status = .completed)) ∧
       (doc'.status = .failed ↔
          (doc'.steps.download.status = .failed ∨
           doc'.steps.agentic_process.status = .failed ∨
           doc'.steps.transform.status = .failed)) ∧
       (¬(doc'.steps.download.status = .failed ∨
          doc'.steps.agentic_process.status = .failed ∨
          doc'.steps.transform.status = .failed) →
        (doc'.steps.download.status = .pending ∨
         doc'.steps.agentic_process.status = .pending ∨
         doc'.steps.transform.status = .pending) →
        (doc'.status = .pending ∨ doc'.status = .downloaded))) := by
  unfold update_step_status
  rw [hdoc]
  cases step
  case download =>
    exact ⟨_, alookup_aset_self _ _ _,
      overallFrom_derivation doc.status status doc.steps.agentic_process.status
        doc.steps.transform.status hs ha ht⟩
  case agentic_process =>
    exact ⟨_, alookup_aset_self _ _ _,
      overallFrom_derivation doc.status doc.steps.download.status status
        doc.steps.transform.status hd hs ht⟩
  case transform =>
    exact ⟨_, alookup_aset_self _ _ _,
      overallFrom_derivation doc.status doc.steps.download.status
        doc.steps.agentic_process.status status hd ha hs⟩

theorem claim_C1_witness :
    ∃ doc',
      alookup (update_step_status sampleMgr "d1" .download .completed none none).mem.documents
          "d1" = some doc' ∧
      ((doc'.status = .completed ↔
          (doc'.steps.download.status = .completed ∧
           doc'.steps.agentic_process.status = .completed ∧
           doc'.steps.transform.status = .completed)) ∧
       (doc'.status = .failed ↔
          (doc'.steps.download.status = .failed ∨
           doc'.steps.agentic_process.status = .failed ∨
           doc'.steps.transform.status = .failed)) ∧
       (¬(doc'.steps.download.status = .failed ∨
          doc'.steps.agentic_process.status = .failed ∨
          doc'.steps.transform.status = .failed) →
        (doc'.steps.download.status = .pending ∨
         doc'.steps.agentic_process.status = .pending ∨
         doc'.steps.transform.status = .pending) →
        (doc'.status = .pending ∨ doc'.status = .downloaded))) :=
  claim_C1 sampleMgr "d1" .download .completed none none sampleDoc rfl
    (Or.inr (Or.inl rfl)) (Or.inl rfl) (Or.inl rfl) (Or.inl rfl)


/-! ## Claim C2: every mutation is persisted before returning. -/

/-- Either the operation left both the in-memory store and the on-disk
    store exactly as they were, or the on-disk store now equals the
    in-memory store (an implicit `_save_state()` ran last). -/
def persistsOrUnchanged (m m' : MgrState) : Prop :=
  (m'.mem = m.mem ∧ m'.disk = m.disk) ∨ m'.disk = some m'.mem

/-- Claim C2: each mutating record operation (`add_document`,
    `add_document_from_json`, `update_step_status`) either performs no
    mutation at all, or flushes the full state store to disk before
    returning, so the on-disk state reflects every completed mutation. -/
theorem claim_C2 :
    (∀ m url doc_id? fn?, persistsOrUnchanged m (add_document m url doc_id? fn?).1) ∧
    (∀ m info, persistsOrUnchanged m (add_document_from_json m info).1) ∧
    (∀ m doc_id step status fp err,
      persistsOrUnchanged m (update_step_status m doc_id step status fp err)) := by
  refine ⟨?_, ?_, ?_⟩
  · intro m url doc_id? fn?
    rcases h : alookup m.mem.documents (doc_id?.getD (m.cfg.docIdHash url)) with _ | d
    · right
      simp [add_document, h, saveState]
    · left
      simp [add_document, h]
  · intro m info
    rcases hs : info.source with _ | url
    · left
      simp [add_document_from_json, hs]
    · rcases hn : info.name with _ | nm
      · left
        simp [add_document_from_json, hs, hn]
      · rcases h : alookup m.mem.documents (m.cfg.docIdHash url) with _ | d
        · right
          simp [add_document_from_json, hs, hn, h, saveState]
        · left
          simp [add_document_from_json, hs, hn, h]
  · intro m doc_id step status fp err
    rcases h : alookup m.mem.documents doc_id with _ | d
    · left
      simp [update_step_status, h]
    · right
      simp [update_step_status, h, saveState]

/-! ## Claim C3: idempotent registration. -/

theorem add_document_cfg (m : MgrState) (url : String) (doc_id? fn? : Option String) :
    (add_document m url doc_id? fn?).1.cfg = m.cfg := by
  rcases h : alookup m.mem.documents (doc_id?.getD (m.cfg.docIdHash url)) with _ | d <;>
    simp [add_document, h, saveState]

theorem add_document_id (m : MgrState) (url : String) (fn? : Option String) :
    (add_document m url none fn?).2 = m.cfg.docIdHash url := by
  rcases h : alookup m.mem.documents (m.cfg.docIdHash url) with _ | d <;>
    simp [add_document, h]

theorem add_document_registers (m : MgrState) (url : String) (fn? : Option String) :
    ∃ r, alookup (add_document m url none fn?).1.mem.documents (m.cfg.docIdHash url)
      = some r := by
  rcases h : alookup m.mem.documents (m.cfg.docIdHash url) with _ | r
  · simp only [add_document, Option.getD_none, h, saveState]
    exact ⟨_, alookup_aset_self _ _ _⟩
  · refine ⟨r, ?_⟩
    simp [add_document, h]

/-- `add_document` on an already-registered id returns the id with no state
    change at all. -/
theorem add_document_exists (m : MgrState) (url : String) (fn? : Option String)
    (r : DocumentRecord) (h : alookup m.mem.documents (m.cfg.docIdHash url) = some r) :
    add_document m url none fn? = (m, m.cfg.docIdHash url) := by
  simp [add_document, h]

theorem add_json_cfg (m : MgrState) (info : DocInfo) :
    (add_document_from_json m info).1.cfg = m.cfg := by
  rcases hs : info.source with _ | url
  · simp [add_document_from_json, hs]
  · rcases hn : info.name with _ | nm
    · simp [add_document_from_json, hs, hn]
    · rcases h : alookup m.mem.documents (m.cfg.docIdHash url) with _ | d <;>
        simp [add_document_from_json, hs, hn, h, saveState]

theorem add_json_id (m : MgrState) (info : DocInfo) (url nm : String)
    (hs : info.source = some url) (hn : info.name = some nm) :
    (add_document_from_json m info).2 = some (m.cfg.docIdHash url) := by
  rcases h : alookup m.mem.documents (m.cfg.docIdHash url) with _ | d <;>
    simp [add_document_from_json, hs, hn, h]

theorem add_json_registers (m : MgrState) (info : DocInfo) (url nm : String)
    (hs : info.source = some url) (hn : info.name = some nm) :
    ∃ r, alookup (add_document_from_json m info).1.mem.documents (m.cfg.docIdHash url)
      = some r := by
  rcases h : alookup m.mem.documents (m.cfg.docIdHash url) with _ | r
  · simp only [add_document_from_json, hs, hn, h, saveState]
    exact ⟨_, alookup_aset_self _ _ _⟩
  · refine ⟨r, ?_⟩
    simp [add_document_from_json, hs, hn, h]

/-- `add_document_from_json` on an already-registered id returns the id
    with no state change at all. -/
theorem add_json_exists (m : MgrState) (info : DocInfo) (url nm : String)
    (hs : info.source = some url) (hn : info.name = some nm)
    (r : DocumentRecord) (h : alookup m.mem.documents (m.cfg.docIdHash url) = some r) :
    add_document_from_json m info = (m, some (m.cfg.docIdHash url)) := by
  simp [add_document_from_json, hs, hn, h]

/-- Claim C3: registering the same source locator a second time — through
    either registration entry point, and regardless of the display name or
    metadata supplied the second time — returns the same identifier and
    leaves the whole state (including the existing record) untouched. -/
theorem claim_C3 (m : MgrState) (url : String) (fn1 fn2 : Option String)
    (info1 info2 : DocInfo) (nm1 nm2 : String)
    (hs1 : info1.source = some url) (hn1 : info1.name = some nm1)
    (hs2 : info2.source = some url) (hn2 : info2.name = some nm2) :
    (add_document (add_document m url none fn1).1 url none fn2
       = add_document m url none fn1) ∧
    (add_document_from_json (add_document_from_json m info1).1 info2
       = add_document_from_json m info1) ∧
    (add_document_from_json (add_document m url none fn1).1 info2
       = ((add_document m url none fn1).1, some ((add_document m url none fn1).2))) ∧
    (add_document (add_document_from_json m info1).1 url none fn2
       = ((add_document_from_json m info1).1, m.cfg.docIdHash url)) := by
  refine ⟨?_, ?_, ?_, ?_⟩
  · obtain ⟨r, hr⟩ := add_document_registers m url fn1
    rw [← add_document_cfg m url none fn1] at hr
    have h2 := add_document_exists _ url fn2 r hr
    rw [h2, add_document_cfg m url none fn1]
    have hpair : add_document m url none fn1
        = ((add_document m url none fn1).1, (add_document m url none fn1).2) := rfl
    rw [hpair, add_document_id m url fn1]
  · obtain ⟨r, hr⟩ := add_json_registers m info1 url nm1 hs1 hn1
    rw [← add_json_cfg m info1] at hr
    have h2 := add_json_exists _ info2 url nm2 hs2 hn2 r hr
    rw [h2, add_json_cfg m info1]
    have hpair : add_document_from_json m info1
        = ((add_document_from_json m info1).1, (add_document_from_json m info1).2) := rfl
    rw [hpair, add_json_id m info1 url nm1 hs1 hn1]
  · obtain ⟨r, hr⟩ := add_document_registers m url fn1
    rw [← add_document_cfg m url none fn1] at hr
    have h2 := add_json_exists _ info2 url nm2 hs2 hn2 r hr
    rw [h2, add_document_cfg m url none fn1, add_document_id m url fn1]
  · obtain ⟨r, hr⟩ := add_json_registers m info1 url nm1 hs1 hn1
    rw [← add_json_cfg m info1] at hr
    have h2 := add_document_exists _ url fn2 r hr
    rw [h2, add_json_cfg m info1]

/-- A sample manager state with an empty document store. -/
def emptyMgr : MgrState :=
  { cfg := { work_dir := "work", docIdHash := fun _ => "d1" },
    mem := { created_at := 0, updated_at := none, pipeline_version := "1.0",
             documents := [] },
    disk := none, fs := ⟨[]⟩, clock := 5, trace := [] }

/-- A sample batch descriptor. -/
def sampleInfo : DocInfo :=
  { source := some "http://h/a.pdf", name := some "n1", document_type := none,
    access := none, language := none, country := none, publisher := none,
    sectionTag := none, output_folder := none }

/-- A second descriptor for the same source with a different name and
    different metadata. -/
def sampleInfo2 : DocInfo :=
  { source := some "http://h/a.pdf", name := some "other", document_type := some "X",
    access := some "private", language := some ["fr"], country := some "c",
    publisher := some "p", sectionTag := some "s", output_folder := some "of" }

theorem claim_C3_witness :
    (add_document (add_document emptyMgr "http://h/a.pdf" none none).1
        "http://h/a.pdf" none (some "b.pdf")
      = add_document emptyMgr "http://h/a.pdf" none none) ∧
    (add_document_from_json (add_document_from_json emptyMgr sampleInfo).1 sampleInfo2
      = add_document_from_json emptyMgr sampleInfo) ∧
    (add_document_from_json (add_document emptyMgr "http://h/a.pdf" none none).1 sampleInfo2
      = ((add_document emptyMgr "http://h/a.pdf" none none).1,
         some ((add_document emptyMgr "http://h/a.pdf" none none).2))) ∧
    (add_document (add_document_from_json emptyMgr sampleInfo).1 "http://h/a.pdf" none none
      = ((add_document_from_json emptyMgr sampleInfo).1,
         emptyMgr.cfg.docIdHash "http://h/a.pdf")) :=
  claim_C3 emptyMgr "http://h/a.pdf" none (some "b.pdf") sampleInfo sampleInfo2
    "n1" "other" rfl rfl rfl rfl

/-! ## Claim C8: grounding pages persisted 1-indexed. -/

theorem mem_enum_of_mem {α : Type} {a : α} {l : List α} (h : a ∈ l) :
    ∃ j : Nat, (j, a) ∈ l.enum := by
  obtain ⟨j, hj⟩ := List.mem_iff_getElem?.mp h
  exact ⟨j, List.mk_mem_enum_iff_getElem?.mpr hj⟩

/-- Claim C8: a content unit (ordinary chunk or figure) whose grounding
    carries a 0-indexed page value `p` from the external service is
    persisted by the extract stage with page value `p + 1`; in particular
    page 0 becomes page 1. -/
theorem claim_C8 (doc_id : String) (doc : DocumentRecord) (pdf_path : String)
    (docRes : ParseDoc) (rest : List ParseDoc) (now : Nat)
    (i : Nat) (c : RawChunk) (g : Grounding) (p : Nat)
    (hic : (i, c) ∈ docRes.chunks.enum) (hg : g ∈ c.grounding) (hp : g.page = some p) :
    (isFigureChunk c = false →
      ∃ cd, cd ∈ (buildAgenticOutput doc_id doc pdf_path (docRes :: rest) now).document.chunks ∧
        cd.id = "chunk_" ++ toString i ∧
        ∃ gl, cd.grounding = some gl ∧
          ({ page := some (p + 1), bbox := g.box } : GroundingData) ∈ gl) ∧
    (isFigureChunk c = true →
      ∃ (j : Nat) (fd : FigureData),
        fd ∈ (buildAgenticOutput doc_id doc pdf_path (docRes :: rest) now).document.figures ∧
        fd.id = "figure_" ++ toString j ∧
        ∃ gl, fd.grounding = some gl ∧
          ({ page := some (p + 1), bbox := g.box } : GroundingData) ∈ gl) := by
  have hmemg : ({ page := some (p + 1), bbox := g.box } : GroundingData)
      ∈ c.grounding.map groundingData := by
    refine List.mem_map.mpr ⟨g, hg, ?_⟩
    simp [groundingData, hp]
  have hgo : groundingOpt c.grounding = some (c.grounding.map groundingData) := by
    have : ¬ c.grounding.isEmpty := by
      cases hcg : c.grounding with
      | nil => rw [hcg] at hg; cases hg
      | cons x xs => simp [List.isEmpty]
    simp [groundingOpt, this]
  constructor
  · intro hnotfig
    refine ⟨mkChunkData i c, ?_, rfl, c.grounding.map groundingData, ?_, hmemg⟩
    · show mkChunkData i c ∈ (buildAgenticOutput doc_id doc pdf_path (docRes :: rest) now).document.chunks
      simp only [buildAgenticOutput]
      refine List.mem_map.mpr ⟨(i, c), ?_, rfl⟩
      refine List.mem_filter.mpr ⟨hic, ?_⟩
      simp [hnotfig]
    · simp [mkChunkData, hgo]
  · intro hfig
    have hc : c ∈ docRes.chunks :=
      List.getElem?_mem (List.mk_mem_enum_iff_getElem?.mp hic)
    have hcf : c ∈ docRes.chunks.filter isFigureChunk :=
      List.mem_filter.mpr ⟨hc, hfig⟩
    obtain ⟨j, hj⟩ := mem_enum_of_mem hcf
    refine ⟨j, mkFigureData j c, ?_, rfl, c.grounding.map groundingData, ?_, hmemg⟩
    · show mkFigureData j c ∈ (buildAgenticOutput doc_id doc pdf_path (docRes :: rest) now).document.figures
      simp only [buildAgenticOutput]
      exact List.mem_map.mpr ⟨(j, c), hj, rfl⟩
    · simp [mkFigureData, hgo]

/-- A raw chunk with a 0-indexed page value of 0 from the service. -/
def rawChunkW : RawChunk :=
  { text := some "hello", reprStr := "chunk", chunk_type := "text",
    grounding := [{ page := some 0, box := none }] }

/-- A raw figure chunk with a 0-indexed page value of 3. -/
def rawFigW : RawChunk :=
  { text := some "fig", reprStr := "figchunk", chunk_type := "figure",
    grounding := [{ page := some 3, box := some "b" }] }

def parseDocW : ParseDoc :=
  { markdown := some "md", chunks := [rawChunkW, rawFigW] }

theorem claim_C8_witness :
    ((isFigureChunk rawChunkW = false →
      ∃ cd, cd ∈ (buildAgenticOutput "d1" sampleDoc "p" [parseDocW] 0).document.chunks ∧
        cd.id = "chunk_" ++ toString 0 ∧
        ∃ gl, cd.grounding = some gl ∧
          ({ page := some (0 + 1), bbox := none } : GroundingData) ∈ gl) ∧
     (isFigureChunk rawChunkW = true →
      ∃ (j : Nat) (fd : FigureData),
        fd ∈ (buildAgenticOutput "d1" sampleDoc "p" [parseDocW] 0).document.figures ∧
        fd.id = "figure_" ++ toString j ∧
        ∃ gl, fd.grounding = some gl ∧
          ({ page := some (0 + 1), bbox := none } : GroundingData) ∈ gl)) ∧
    ((isFigureChunk rawFigW = false →
      ∃ cd, cd ∈ (buildAgenticOutput "d1" sampleDoc "p" [parseDocW] 0).document.chunks ∧
        cd.id = "chunk_" ++ toString 1 ∧
        ∃ gl, cd.grounding = some gl ∧
          ({ page := some (3 + 1), bbox := some "b" } : GroundingData) ∈ gl) ∧
     (isFigureChunk rawFigW = true →
      ∃ (j : Nat) (fd : FigureData),
        fd ∈ (buildAgenticOutput "d1" sampleDoc "p" [parseDocW] 0).document.figures ∧
        fd.id = "figure_" ++ toString j ∧
        ∃ gl, fd.grounding = some gl ∧
          ({ page := some (3 + 1), bbox := some "b" } : GroundingData) ∈ gl)) :=
  ⟨claim_C8 "d1" sampleDoc "p" parseDocW [] 0 0 rawChunkW
      { page := some 0, box := none } 0 (by decide) (by decide) rfl,
   claim_C8 "d1" sampleDoc "p" parseDocW [] 0 1 rawFigW
      { page := some 3, box := some "b" } 3 (by decide) (by decide) rfl⟩

/-! ## Claim C10: the per-document error list is append-only. -/

/-- Every record present before the step is still present afterwards and
    its error list has only grown at the end. -/
def errorsExtended (m m' : MgrState) : Prop :=
  ∀ doc_id doc, alookup m.mem.documents doc_id = some doc →
    ∃ doc' t, alookup m'.mem.documents doc_id = some doc' ∧
      doc'.errors = doc.errors ++ t

theorem errorsExtended_of_eq {m m' : MgrState}
    (h : m'.mem.documents = m.mem.documents) : errorsExtended m m' := by
  intro doc_id doc h0
  exact ⟨doc, [], by rw [h]; exact h0, by simp⟩

theorem errorsExtended_trans {m1 m2 m3 : MgrState}
    (h12 : errorsExtended m1 m2) (h23 : errorsExtended m2 m3) :
    errorsExtended m1 m3 := by
  intro doc_id doc h0
  obtain ⟨d2, t2, h2, he2⟩ := h12 doc_id doc h0
  obtain ⟨d3, t3, h3, he3⟩ := h23 doc_id d2 h2
  exact ⟨d3, t2 ++ t3, h3, by rw [he3, he2, List.append_assoc]⟩

theorem errorsExtended_update (m : MgrState) (doc_id : String) (step : StepName)
    (status : ProcessingStatus) (fp err : Option String) :
    errorsExtended m (update_step_status m doc_id step status fp err) := by
  intro id0 doc0 h0
  rcases h : alookup m.mem.documents doc_id with _ | doc
  · simp only [update_step_status, h]
    exact ⟨doc0, [], h0, by simp⟩
  · simp only [update_step_status, h, saveState]
    by_cases hid : doc_id = id0
    · subst hid
      have hdd : doc = doc0 := by
        rw [h] at h0
        exact Option.some.inj h0
      subst hdd
      rcases err with _ | e
      · exact ⟨_, [], alookup_aset_self _ _ _, by simp⟩
      · by_cases he : e = ""
        · exact ⟨_, [], alookup_aset_self _ _ _, by simp [he]⟩
        · exact ⟨_, [{ step := step, error := e, timestamp := m.clock }],
            alookup_aset_self _ _ _, by simp [he]⟩
    · refine ⟨doc0, [], ?_, by simp⟩
      rw [alookup_aset_ne _ _ _ _ hid]
      exact h0

theorem errorsExtended_update_of_eq {m0 m1 : MgrState}
    (h : m1.mem.documents = m0.mem.documents) (doc_id : String) (step : StepName)
    (status : ProcessingStatus) (fp err : Option String) :
    errorsExtended m0 (update_step_status m1 doc_id step status fp err) :=
  errorsExtended_trans (errorsExtended_of_eq h)
    (errorsExtended_update m1 doc_id step status fp err)

theorem errorsExtended_setStatus (m : MgrState) (doc_id : String) :
    errorsExtended m (setStatusCompletedAndSave m doc_id) := by
  intro id0 doc0 h0
  rcases h : alookup m.mem.documents doc_id with _ | doc
  · simp only [setStatusCompletedAndSave, h]
    exact ⟨doc0, [], h0, by simp⟩
  · simp only [setStatusCompletedAndSave, h, saveState]
    by_cases hid : doc_id = id0
    · subst hid
      have hdd : doc = doc0 := by
        rw [h] at h0
        exact Option.some.inj h0
      subst hdd
      exact ⟨_, [], alookup_aset_self _ _ _, by simp⟩
    · refine ⟨doc0, [], ?_, by simp⟩
      rw [alookup_aset_ne _ _ _ _ hid]
      exact h0

theorem errorsExtended_add (m : MgrState) (url : String) (did fn : Option String) :
    errorsExtended m (add_document m url did fn).1 := by
  intro id0 doc0 h0
  rcases h : alookup m.mem.documents (did.getD (m.cfg.docIdHash url)) with _ | r
  · simp only [add_document, h, saveState]
    refine ⟨doc0, [], ?_, by simp⟩
    have hne : did.getD (m.cfg.docIdHash url) ≠ id0 := by
      intro he
      rw [he, h0] at h
      cases h
    rw [alookup_aset_ne _ _ _ _ hne]
    exact h0
  · simp only [add_document, h]
    exact ⟨doc0, [], h0, by simp⟩

theorem errorsExtended_addjson (m : MgrState) (info : DocInfo) :
    errorsExtended m (add_document_from_json m info).1 := by
  intro id0 doc0 h0
  rcases hs : info.source with _ | url
  · simp only [add_document_from_json, hs]
    exact ⟨doc0, [], h0, by simp⟩
  · rcases hn : info.name with _ | nm
    · simp only [add_document_from_json, hs, hn]
      exact ⟨doc0, [], h0, by simp⟩
    · rcases h : alookup m.mem.documents (m.cfg.docIdHash url) with _ | r
      · simp only [add_document_from_json, hs, hn, h, saveState]
        refine ⟨doc0, [], ?_, by simp⟩
        have hne : m.cfg.docIdHash url ≠ id0 := by
          intro he
          rw [he, h0] at h
          cases h
        rw [alookup_aset_ne _ _ _ _ hne]
        exact h0
      · simp only [add_document_from_json, hs, hn, h]
        exact ⟨doc0, [], h0, by simp⟩

theorem errorsExtended_download (env : Env) (m : MgrState) (doc_id : String) :
    errorsExtended m (download_pdf env m doc_id).1 := by
  rcases h : alookup m.mem.documents doc_id with _ | doc
  · simp only [download_pdf, pushEvent, h]
    exact errorsExtended_of_eq rfl
  · simp only [download_pdf, pushEvent, h]
    split
    · (dsimp only; refine errorsExtended_update_of_eq ?_ _ _ _ _ _; rfl)
    · split
      · (dsimp only; refine errorsExtended_update_of_eq ?_ _ _ _ _ _; rfl)
      · (dsimp only; refine errorsExtended_update_of_eq ?_ _ _ _ _ _; rfl)

theorem errorsExtended_agentic (env : Env) (m : MgrState) (doc_id : String) :
    errorsExtended m (process_with_agentic_doc env m doc_id).1 := by
  rcases h : alookup m.mem.documents doc_id with _ | doc
  · simp only [process_with_agentic_doc, pushEvent, h]
    exact errorsExtended_of_eq rfl
  · simp only [process_with_agentic_doc, pushEvent, h]
    split
    · exact errorsExtended_of_eq rfl
    · split
      · (dsimp only; refine errorsExtended_update_of_eq ?_ _ _ _ _ _; rfl)
      · split
        · (dsimp only; refine errorsExtended_update_of_eq ?_ _ _ _ _ _; rfl)
        · split
          · (dsimp only; refine errorsExtended_update_of_eq ?_ _ _ _ _ _; rfl)
          · (dsimp only; refine errorsExtended_update_of_eq ?_ _ _ _ _ _; rfl)

theorem errorsExtended_transform (env : Env) (m : MgrState) (doc_id : String) :
    errorsExtended m (transform_to_pdf_processed env m doc_id).1 := by
  rcases h : alookup m.mem.documents doc_id with _ | doc
  · simp only [transform_to_pdf_processed, pushEvent, h]
    exact errorsExtended_of_eq rfl
  · simp only [transform_to_pdf_processed, pushEvent, h]
    split
    · exact errorsExtended_of_eq rfl
    · split
      · (dsimp only; refine errorsExtended_update_of_eq ?_ _ _ _ _ _; rfl)
      · split
        · (dsimp only; refine errorsExtended_update_of_eq ?_ _ _ _ _ _; rfl)
        · split
          · dsimp only
            refine errorsExtended_trans (errorsExtended_update_of_eq ?_ _ _ _ _ _)
              (errorsExtended_setStatus _ _)
            rfl
          · (dsimp only; refine errorsExtended_update_of_eq ?_ _ _ _ _ _; rfl)

/-- Claim C10: the per-document error list is append-only.  A step-status
    update with a non-empty error appends exactly one entry; every record
    operation (registration, status update, and the three stage executors)
    only ever extends a record's error list at the end; and an error
    appended by a Failed update survives a later Completed update of the
    same step. -/
theorem claim_C10 :
    (∀ m doc_id step status fp (e : String) doc, e ≠ "" →
       alookup m.mem.documents doc_id = some doc →
       ∃ doc',
         alookup (update_step_status m doc_id step status fp (some e)).mem.documents doc_id
           = some doc' ∧
         doc'.errors = doc.errors ++ [{ step := step, error := e, timestamp := m.clock }]) ∧
    (∀ m url did fn, errorsExtended m (add_document m url did fn).1) ∧
    (∀ m info, errorsExtended m (add_document_from_json m info).1) ∧
    (∀ m doc_id step status fp err,
       errorsExtended m (update_step_status m doc_id step status fp err)) ∧
    (∀ env m doc_id, errorsExtended m (download_pdf env m doc_id).1) ∧
    (∀ env m doc_id, errorsExtended m (process_with_agentic_doc env m doc_id).1) ∧
    (∀ env m doc_id, errorsExtended m (transform_to_pdf_processed env m doc_id).1) ∧
    (∀ m doc_id step fp fp2 (e : String) doc, e ≠ "" →
       alookup m.mem.documents doc_id = some doc →
       ∃ doc',
         alookup (update_step_status
             (update_step_status m doc_id step .failed fp (some e))
             doc_id step .completed fp2 none).mem.documents doc_id = some doc' ∧
         ({ step := step, error := e, timestamp := m.clock } : ErrorEntry) ∈ doc'.errors) := by
  have happend : ∀ m doc_id step status fp (e : String) doc, e ≠ "" →
      alookup m.mem.documents doc_id = some doc →
      ∃ doc',
        alookup (update_step_status m doc_id step status fp (some e)).mem.documents doc_id
          = some doc' ∧
        doc'.errors = doc.errors ++ [{ step := step, error := e, timestamp := m.clock }] := by
    intro m doc_id step status fp e doc he h0
    simp only [update_step_status, h0, saveState]
    exact ⟨_, alookup_aset_self _ _ _, by simp [he]⟩
  refine ⟨happend, errorsExtended_add, errorsExtended_addjson, errorsExtended_update,
    errorsExtended_download, errorsExtended_agentic, errorsExtended_transform, ?_⟩
  intro m doc_id step fp fp2 e doc he h0
  obtain ⟨d1, h1, he1⟩ := happend m doc_id step .failed fp e doc he h0
  obtain ⟨d2, t2, h2, he2⟩ :=
    errorsExtended_update (update_step_status m doc_id step .failed fp (some e))
      doc_id step .completed fp2 none doc_id d1 h1
  refine ⟨d2, h2, ?_⟩
  rw [he2, he1]
  simp

theorem claim_C10_witness :
    ∃ doc',
      alookup (update_step_status sampleMgr "d1" .download .completed none
          (some "boom")).mem.documents "d1" = some doc' ∧
      doc'.errors = sampleDoc.errors ++
        [{ step := .download, error := "boom", timestamp := sampleMgr.clock }] :=
  claim_C10.1 sampleMgr "d1" .download .completed none "boom" sampleDoc
    (by decide) rfl

/-! ## Characterization toolkit for `update_step_status` and friends. -/

theorem append_ne_empty (a b : String) (h : a ≠ "") : a ++ b ≠ "" := by
  intro hc
  apply h
  have hl := congrArg String.length hc
  rw [String.length_append] at hl
  simp only [String.length_empty] at hl
  have ha : a.length = 0 := by omega
  cases a with
  | mk data =>
    cases data with
    | nil => rfl
    | cons c cs => simp [String.length] at ha

theorem update_fs (m : MgrState) (doc_id : String) (step : StepName)
    (status : ProcessingStatus) (fp err : Option String) :
    (update_step_status m doc_id step status fp err).fs = m.fs := by
  rcases h : alookup m.mem.documents doc_id with _ | doc <;>
    simp [update_step_status, h, saveState]

theorem update_cfg (m : MgrState) (doc_id : String) (step : StepName)
    (status : ProcessingStatus) (fp err : Option String) :
    (update_step_status m doc_id step status fp err).cfg = m.cfg := by
  rcases h : alookup m.mem.documents doc_id with _ | doc <;>
    simp [update_step_status, h, saveState]

theorem update_clock (m : MgrState) (doc_id : String) (step : StepName)
    (status : ProcessingStatus) (fp err : Option String) :
    (update_step_status m doc_id step status fp err).clock = m.clock := by
  rcases h : alookup m.mem.documents doc_id with _ | doc <;>
    simp [update_step_status, h, saveState]

theorem update_trace (m : MgrState) (doc_id : String) (step : StepName)
    (status : ProcessingStatus) (fp err : Option String) :
    (update_step_status m doc_id step status fp err).trace = m.trace := by
  rcases h : alookup m.mem.documents doc_id with _ | doc <;>
    simp [update_step_status, h, saveState]

/-- Full characterization of the record written back by
    `update_step_status` on an existing id. -/
theorem update_lookup_self (m : MgrState) (doc_id : String) (step : StepName)
    (status : ProcessingStatus) (fp err : Option String) (doc : DocumentRecord)
    (h : alookup m.mem.documents doc_id = some doc) :
    ∃ doc',
      alookup (update_step_status m doc_id step status fp err).mem.documents doc_id
        = some doc' ∧
      doc'.steps = doc.steps.set step { status := status, timestamp := some m.clock } ∧
      doc'.files = (match fp with
        | some p => if p = "" then doc.files else doc.files.set step p
        | none => doc.files) ∧
      doc'.errors = (match err with
        | some e => if e = "" then doc.errors
                    else doc.errors ++ [{ step := step, error := e, timestamp := m.clock }]
        | none => doc.errors) ∧
      doc'.status = overallFrom doc.status
        (doc.steps.set step { status := status, timestamp := some m.clock }).download.status
        (doc.steps.set step { status := status, timestamp := some m.clock }).agentic_process.status
        (doc.steps.set step { status := status, timestamp := some m.clock }).transform.status ∧
      doc'.url = doc.url ∧ doc'.original_filename = doc.original_filename ∧
      doc'.metadata = doc.metadata ∧ doc'.created_at = doc.created_at := by
  simp only [update_step_status, h, saveState]
  exact ⟨_, alookup_aset_self _ _ _, rfl, rfl, rfl, rfl, rfl, rfl, rfl, rfl⟩

theorem update_lookup_ne (m : MgrState) (doc_id : String) (step : StepName)
    (status : ProcessingStatus) (fp err : Option String) (id0 : String)
    (hne : doc_id ≠ id0) :
    alookup (update_step_status m doc_id step status fp err).mem.documents id0
      = alookup m.mem.documents id0 := by
  rcases h : alookup m.mem.documents doc_id with _ | doc
  · simp [update_step_status, h]
  · simp only [update_step_status, h, saveState]
    exact alookup_aset_ne _ _ _ _ hne

theorem setStatus_lookup_self (m : MgrState) (doc_id : String) (doc : DocumentRecord)
    (h : alookup m.mem.documents doc_id = some doc) :
    alookup (setStatusCompletedAndSave m doc_id).mem.documents doc_id
      = some { doc with status := .completed } := by
  simp only [setStatusCompletedAndSave, h, saveState]
  exact alookup_aset_self _ _ _

theorem setStatus_lookup_ne (m : MgrState) (doc_id id0 : String) (hne : doc_id ≠ id0) :
    alookup (setStatusCompletedAndSave m doc_id).mem.documents id0
      = alookup m.mem.documents id0 := by
  rcases h : alookup m.mem.documents doc_id with _ | doc
  · simp [setStatusCompletedAndSave, h]
  · simp only [setStatusCompletedAndSave, h, saveState]
    exact alookup_aset_ne _ _ _ _ hne

theorem setStatus_fs (m : MgrState) (doc_id : String) :
    (setStatusCompletedAndSave m doc_id).fs = m.fs := by
  rcases h : alookup m.mem.documents doc_id with _ | doc <;>
    simp [setStatusCompletedAndSave, h, saveState]

theorem setStatus_trace (m : MgrState) (doc_id : String) :
    (setStatusCompletedAndSave m doc_id).trace = m.trace := by
  rcases h : alookup m.mem.documents doc_id with _ | doc <;>
    simp [setStatusCompletedAndSave, h, saveState]

/-! ## Claim C4: extract-stage failure handling. -/

theorem FS.read_write_self (fs : FS) (p : String) (c : FileContent) :
    (fs.write p c).read p = some c :=
  alookup_aset_self _ _ _

theorem FS.read_write_ne (fs : FS) (p p' : String) (c : FileContent) (h : p ≠ p') :
    (fs.write p c).read p' = fs.read p' :=
  alookup_aset_ne _ _ _ _ h

/-- The extract-stage output path (`output_json_path`). -/
def agenticOutPath (work_dir : String) (doc : DocumentRecord) : String :=
  (outputDirsFor work_dir doc).2.1 ++ "/" ++ dropLastExt doc.original_filename ++ ".json"

theorem c4_parse_error_run (env : Env) (m : MgrState) (doc_id : String)
    (doc : DocumentRecord) (e : String)
    (hdoc : alookup m.mem.documents doc_id = some doc)
    (hdl : doc.steps.download.status = .completed)
    (hout : m.fs.read (agenticOutPath m.cfg.work_dir doc) = none)
    (hp : env.agenticParse ((doc.files.get .download).getD "") = .error e) :
    process_with_agentic_doc env m doc_id =
      (update_step_status { m with trace := m.trace ++ [Event.agenticInvoked doc_id] }
        doc_id .agentic_process .failed none
        (some ("Error procesando con Agentic-doc: " ++ e)), false) := by
  rw [agenticOutPath] at hout
  simp [process_with_agentic_doc, pushEvent, hdoc, hdl, hout, hp]

theorem c4_write_fail_run (env : Env) (m : MgrState) (doc_id : String)
    (doc : DocumentRecord) (result : List ParseDoc) (w msg : String)
    (hdoc : alookup m.mem.documents doc_id = some doc)
    (hdl : doc.steps.download.status = .completed)
    (hout : m.fs.read (agenticOutPath m.cfg.work_dir doc) = none)
    (hp : env.agenticParse ((doc.files.get .download).getD "") = .ok result)
    (hw : env.writeAgentic (buildAgenticOutput doc_id doc
        ((doc.files.get .download).getD "") result m.clock) = .failMid w msg) :
    process_with_agentic_doc env m doc_id =
      (update_step_status
        { m with trace := m.trace ++ [Event.agenticInvoked doc_id],
                 fs := m.fs.write (agenticOutPath m.cfg.work_dir doc) (.truncated w) }
        doc_id .agentic_process .failed none
        (some ("Error procesando con Agentic-doc: " ++ msg)), false) := by
  rw [agenticOutPath] at hout
  simp [process_with_agentic_doc, pushEvent, hdoc, hdl, hout, hp, hw, agenticOutPath]

/-- Claim C4 (amended): when the extract stage hits an exception, the step
    is recorded Failed with the error captured; if the external extraction
    call itself raised, no artifact appears at the output path, but if the
    exception interrupts the direct `json.dump` serialization/write, a
    partial (truncated) artifact is left at the output path — the write is
    not all-or-nothing. -/
theorem claim_C4_amended (env : Env) (m : MgrState) (doc_id : String)
    (doc : DocumentRecord)
    (hdoc : alookup m.mem.documents doc_id = some doc)
    (hdl : doc.steps.download.status = .completed)
    (hout : m.fs.read (agenticOutPath m.cfg.work_dir doc) = none) :
    (∀ e, env.agenticParse ((doc.files.get .download).getD "") = .error e →
      (process_with_agentic_doc env m doc_id).2 = false ∧
      (process_with_agentic_doc env m doc_id).1.fs.read
          (agenticOutPath m.cfg.work_dir doc) = none ∧
      ∃ doc',
        alookup (process_with_agentic_doc env m doc_id).1.mem.documents doc_id
          = some doc' ∧
        doc'.steps.agentic_process.status = .failed ∧
        doc'.errors = doc.errors ++ [{ step := .agentic_process, error := "Error procesando con Agentic-doc: " ++ e, timestamp := m.clock }]) ∧
    (∀ result w msg,
      env.agenticParse ((doc.files.get .download).getD "") = .ok result →
      env.writeAgentic (buildAgenticOutput doc_id doc
          ((doc.files.get .download).getD "") result m.clock) = .failMid w msg →
      (process_with_agentic_doc env m doc_id).2 = false ∧
      (process_with_agentic_doc env m doc_id).1.fs.read
          (agenticOutPath m.cfg.work_dir doc) = some (.truncated w) ∧
      ∃ doc',
        alookup (process_with_agentic_doc env m doc_id).1.mem.documents doc_id
          = some doc' ∧
        doc'.steps.agentic_process.status = .failed ∧
        doc'.errors = doc.errors ++ [{ step := .agentic_process, error := "Error procesando con Agentic-doc: " ++ msg, timestamp := m.clock }]) := by
  constructor
  · intro e hp
    rw [c4_parse_error_run env m doc_id doc e hdoc hdl hout hp]
    have hne : ("Error procesando con Agentic-doc: " ++ e) ≠ "" :=
      append_ne_empty _ _ (by decide)
    refine ⟨rfl, ?_, ?_⟩
    · rw [update_fs]
      exact hout
    · obtain ⟨doc', hl, hsteps, _, herr, _⟩ :=
        update_lookup_self { m with trace := m.trace ++ [Event.agenticInvoked doc_id] }
          doc_id .agentic_process .failed none
          (some ("Error procesando con Agentic-doc: " ++ e)) doc hdoc
      refine ⟨doc', hl, ?_, ?_⟩
      · rw [hsteps]
        rfl
      · rw [herr]
        simp [hne]
  · intro result w msg hp hw
    rw [c4_write_fail_run env m doc_id doc result w msg hdoc hdl hout hp hw]
    have hne : ("Error procesando con Agentic-doc: " ++ msg) ≠ "" :=
      append_ne_empty _ _ (by decide)
    refine ⟨rfl, ?_, ?_⟩
    · rw [update_fs]
      exact FS.read_write_self _ _ _
    · obtain ⟨doc', hl, hsteps, _, herr, _⟩ :=
        update_lookup_self
          { m with trace := m.trace ++ [Event.agenticInvoked doc_id],
                   fs := m.fs.write (agenticOutPath m.cfg.work_dir doc) (.truncated w) }
          doc_id .agentic_process .failed none
          (some ("Error procesando con Agentic-doc: " ++ msg)) doc hdoc
      refine ⟨doc', hl, ?_, ?_⟩
      · rw [hsteps]
        rfl
      · rw [herr]
        simp [hne]

/-- A record whose download step is Completed, ready for the extract
    stage. -/
def docC4 : DocumentRecord :=
  { url := "http://h/a.pdf", original_filename := "a.pdf", metadata := Metadata.empty,
    status := .pending, created_at := 0,
    steps :=
      { download := { status := .completed, timestamp := some 1 },
        agentic_process := { status := .pending, timestamp := none },
        transform := { status := .pending, timestamp := none } },
    files := { download := some "work/pdfs/a.pdf", agentic_process := none,
               transform := none },
    errors := [] }

def mgrC4 : MgrState :=
  { cfg := { work_dir := "work", docIdHash := fun _ => "d1" },
    mem := { created_at := 0, updated_at := none, pipeline_version := "1.0",
             documents := [("d1", docC4)] },
    disk := none, fs := ⟨[]⟩, clock := 7, trace := [] }

/-- An environment whose extraction call succeeds but whose artifact
    serialization raises partway through the write. -/
def envC4 : Env :=
  { httpGet := fun _ => .error "offline",
    agenticParse := fun _ => .ok [],
    chatJson := fun _ => .error "offline",
    writeAgentic := fun _ => .failMid "PARTIAL" "disk full",
    writeProcessed := fun _ => .success }

/-- Claim C4 counterexample: a run of the extract stage in which the
    serialization of the output raises leaves a partial (truncated)
    artifact at the expected output path — the write is not all-or-nothing
    — and a subsequent idempotent-skip check on that path sees the partial
    file and marks the step Completed. -/
theorem claim_C4_counterexample :
    (process_with_agentic_doc envC4 mgrC4 "d1").2 = false ∧
    ((alookup (process_with_agentic_doc envC4 mgrC4 "d1").1.mem.documents "d1").map
      (fun d => d.steps.agentic_process.status)) = some .failed ∧
    (process_with_agentic_doc envC4 mgrC4 "d1").1.fs.read "work/agentic_outputs/a.json"
      = some (.truncated "PARTIAL") ∧
    (process_with_agentic_doc envC4
        (process_with_agentic_doc envC4 mgrC4 "d1").1 "d1").2 = true ∧
    ((alookup (process_with_agentic_doc envC4
        (process_with_agentic_doc envC4 mgrC4 "d1").1 "d1").1.mem.documents "d1").map
      (fun d => d.steps.agentic_process.status)) = some .completed := by
  decide

theorem claim_C4_witness :
    (process_with_agentic_doc envC4 mgrC4 "d1").2 = false ∧
    (process_with_agentic_doc envC4 mgrC4 "d1").1.fs.read
        (agenticOutPath mgrC4.cfg.work_dir docC4) = some (.truncated "PARTIAL") ∧
    ∃ doc',
      alookup (process_with_agentic_doc envC4 mgrC4 "d1").1.mem.documents "d1"
        = some doc' ∧
      doc'.steps.agentic_process.status = .failed ∧
      doc'.errors = docC4.errors ++ [{ step := .agentic_process, error := "Error procesando con Agentic-doc: " ++ "disk full", timestamp := mgrC4.clock }] :=
  (claim_C4_amended envC4 mgrC4 "d1" docC4 rfl rfl rfl).2 [] "PARTIAL" "disk full" rfl rfl

/-! ## Claim C9: page range comes from chunks only; out-of-range figures
    are dropped. -/

theorem foldl_max_all_one (l : List Nat) (h : ∀ x ∈ l, x = 1) :
    ∀ a : Nat, l.foldl Nat.max a = if l.isEmpty then a else Nat.max a 1 := by
  induction l with
  | nil => intro a; rfl
  | cons x xs ih =>
    intro a
    have hx : x = 1 := h x (List.mem_cons_self _ _)
    have hxs : ∀ y ∈ xs, y = 1 := fun y hy => h y (List.mem_cons_of_mem _ hy)
    subst hx
    simp only [List.foldl_cons, ih hxs (Nat.max a 1), List.isEmpty_cons]
    cases hemp : xs.isEmpty <;> simp [Nat.max_assoc]

theorem pageFigures_drop (l1 l2 : List FigureData) (fig : FigureData) (n : Nat)
    (h : ∀ p ∈ figPages fig, p ≠ n) :
    pageFigures (l1 ++ fig :: l2) n = pageFigures (l1 ++ l2) n := by
  unfold pageFigures
  rw [List.flatMap_append, List.flatMap_append, List.flatMap_cons]
  have hnil : ((figPages fig).filter (· == n)).map (fun _ => fig) = [] := by
    rw [List.filter_eq_nil_iff.mpr]
    · rfl
    · intro p hp
      simp [h p hp]
  rw [hnil]
  simp

theorem transformPageObj_figures_eq (env : Env) (doc_name : String) (dm : Metadata)
    (source_url : String) (chunks : List ChunkData) (figs1 figs2 : List FigureData)
    (n : Nat) (hpf : pageFigures figs1 n = pageFigures figs2 n) :
    transformPageObj env doc_name dm source_url chunks figs1 n
      = transformPageObj env doc_name dm source_url chunks figs2 n := by
  simp only [transformPageObj, hpf]

/-- Claim C9: the total page count and the page range of the final
    artifact are computed from the chunks' grounding pages only
    (defaulting to 1 when no chunk carries grounding), and a figure all of
    whose grounding pages exceed the chunk-derived total page count
    contributes nothing to the artifact's content — removing it leaves the
    content unchanged. -/
theorem claim_C9 (env : Env) (doc_id : String) (aj : AgenticOutput)
    (doc : DocumentRecord) (now : Nat) :
    ((mistral_transform env doc_id aj doc now).metadata.total_pages
       = totalPagesOf aj.document.chunks) ∧
    ((∀ c ∈ aj.document.chunks, c.grounding.getD [] = []) →
       totalPagesOf aj.document.chunks = 1) ∧
    ((mistral_transform env doc_id aj doc now).content.map (·.page_number)
       = (List.range (totalPagesOf aj.document.chunks)).map (· + 1)) ∧
    (∀ l1 fig l2, aj.document.figures = l1 ++ fig :: l2 →
      (∀ p ∈ figPages fig, totalPagesOf aj.document.chunks < p) →
      (mistral_transform env doc_id aj doc now).content
        = (mistral_transform env doc_id
            { aj with document := { aj.document with figures := l1 ++ l2 } }
            doc now).content) := by
  refine ⟨rfl, ?_, ?_, ?_⟩
  · intro h
    unfold totalPagesOf
    have hall : ∀ x ∈ aj.document.chunks.flatMap chunkPages, x = 1 := by
      intro x hx
      obtain ⟨c, hc, hxc⟩ := List.mem_flatMap.mp hx
      rw [chunkPages, h c hc] at hxc
      simpa using hxc
    cases hemp : (aj.document.chunks.flatMap chunkPages).isEmpty
    · simp only [hemp]
      rw [foldl_max_all_one _ hall 0, hemp]
      simp
    · simp [hemp]
  · simp only [mistral_transform]
    rw [List.map_map]
    exact List.map_congr_left (fun k _ => rfl)
  · intro l1 fig l2 hsplit hgt
    simp only [mistral_transform, hsplit]
    refine List.map_congr_left (fun k hk => ?_)
    refine transformPageObj_figures_eq _ _ _ _ _ _ _ _ ?_
    refine pageFigures_drop _ _ _ _ (fun p hp => ?_)
    have hkT : k < totalPagesOf aj.document.chunks := List.mem_range.mp hk
    have := hgt p hp
    omega

def chunkW : ChunkData :=
  { id := "chunk_0", content := "hello", type := "text",
    grounding := some [{ page := some 2, bbox := none }] }

/-- A figure grounded only on page 5, beyond the chunk-derived range. -/
def figW : FigureData :=
  { id := "figure_0", text := "figtext", type := "figure",
    grounding := some [{ page := some 5, bbox := none }] }

def ajW : AgenticOutput :=
  { metadata :=
      { document_id := "d1", source_url := "http://h/a.pdf", pdf_path := "work/pdfs/a.pdf",
        processed_date := 0, total_chunks := 1, total_figures := 1,
        total_characters := 2 },
    document :=
      { id := "d1", filename := "a.pdf", markdown := "md",
        chunks := [chunkW], figures := [figW] } }

def chunkNoG : ChunkData :=
  { id := "chunk_0", content := "hello", type := "text", grounding := none }

def ajW2 : AgenticOutput :=
  { ajW with document := { ajW.document with chunks := [chunkNoG], figures := [] } }

theorem claim_C9_witness :
    ((mistral_transform envC4 "d1" ajW docC4 0).content
       = (mistral_transform envC4 "d1"
           { ajW with document := { ajW.document with figures := [] ++ [] } }
           docC4 0).content) ∧
    totalPagesOf ajW2.document.chunks = 1 :=
  ⟨(claim_C9 envC4 "d1" ajW docC4 0).2.2.2 [] figW [] rfl (by decide),
   (claim_C9 envC4 "d1" ajW2 docC4 0).2.1 (by decide)⟩

/-! ## Claim C5: per-page / per-figure fallback in the structure stage. -/

/-- The structure-stage output path (`pdf_processed_path`). -/
def processedOutPath (work_dir : String) (doc : DocumentRecord) : String :=
  (outputDirsFor work_dir doc).2.2 ++ "/" ++ dropLastExt doc.original_filename ++ ".json"

theorem mistral_transform_content_get (env : Env) (doc_id : String) (aj : AgenticOutput)
    (doc : DocumentRecord) (now : Nat) (n : Nat)
    (h1 : 1 ≤ n) (h2 : n ≤ totalPagesOf aj.document.chunks) :
    (mistral_transform env doc_id aj doc now).content[n - 1]?
      = some (transformPageObj env (dropLastExt doc.original_filename) doc.metadata
          aj.metadata.source_url aj.document.chunks aj.document.figures n) := by
  have hn : n - 1 + 1 = n := by omega
  simp only [mistral_transform]
  rw [List.getElem?_map, List.getElem?_range (by omega : n - 1 < totalPagesOf aj.document.chunks)]
  simp only [Option.map]
  rw [hn]

/-- Characterization of a successful structure-stage run. -/
theorem c5_success_run (env : Env) (m : MgrState) (doc_id : String)
    (doc : DocumentRecord) (aj : AgenticOutput)
    (hdoc : alookup m.mem.documents doc_id = some doc)
    (hag : doc.steps.agentic_process.status = .completed)
    (hout : m.fs.read (processedOutPath m.cfg.work_dir doc) = none)
    (hread : m.fs.read ((doc.files.get .agentic_process).getD "") = some (.agentic aj))
    (hw : env.writeProcessed (mistral_transform env doc_id aj doc m.clock) = .success) :
    transform_to_pdf_processed env m doc_id =
      (setStatusCompletedAndSave
        (update_step_status
          { m with trace := m.trace ++ [Event.transformInvoked doc_id],
                   fs := m.fs.write (processedOutPath m.cfg.work_dir doc)
                     (.processed (mistral_transform env doc_id aj doc m.clock)) }
          doc_id .transform .completed (some (processedOutPath m.cfg.work_dir doc)) none)
        doc_id, true) := by
  rw [processedOutPath] at hout
  simp [transform_to_pdf_processed, pushEvent, hdoc, hag, hout, readAgentic, hread, hw,
    processedOutPath]

theorem structured_page_fallback (env : Env) (dn t : String) (dm : Metadata)
    (su : String) (e : String) (htrim : trimS t ≠ "")
    (herr : env.chatJson (pagePrompt t) = .error e) :
    mistral_structure_page env dn t dm su = fallbackPageRecord dn t dm := by
  simp [mistral_structure_page, htrim, herr]

theorem structured_page_ok (env : Env) (dn t : String) (dm : Metadata)
    (su : String) (R : PageRecord) (htrim : trimS t ≠ "")
    (hok : env.chatJson (pagePrompt t) = .ok R) :
    mistral_structure_page env dn t dm su = R := by
  simp [mistral_structure_page, htrim, hok]

theorem structured_image_fallback (env : Env) (t : String) (j n : Nat) (dm : Metadata)
    (e : String) (htrim : trimS t ≠ "")
    (herr : env.chatJson (imagePrompt t) = .error e) :
    mistral_structure_image env t j n dm = some (fallbackImageRecord t j n dm) := by
  simp [mistral_structure_image, htrim, herr]

theorem structured_image_ok (env : Env) (t : String) (j n : Nat) (dm : Metadata)
    (R : PageRecord) (htrim : trimS t ≠ "")
    (hok : env.chatJson (imagePrompt t) = .ok R) :
    mistral_structure_image env t j n dm = some R := by
  simp [mistral_structure_image, htrim, hok]

theorem image_mem_of_getElem (env : Env) (dn : String) (dm : Metadata) (su : String)
    (chunks : List ChunkData) (figs : List FigureData) (n j : Nat) (fig : FigureData)
    (r : PageRecord)
    (hfig : (pageFigures figs n)[j]? = some fig)
    (hsome : mistral_structure_image env fig.text j n dm = some r) :
    r ∈ (transformPageObj env dn dm su chunks figs n).structured_image_content := by
  show r ∈ (pageFigures figs n).enum.filterMap
    (fun p => mistral_structure_image env p.2.text p.1 n dm)
  exact List.mem_filterMap.mpr ⟨(j, fig), List.mk_mem_enum_iff_getElem?.mpr hfig, hsome⟩

theorem transform_mark_completed (m' : MgrState) (doc_id : String) (fp : Option String)
    (doc : DocumentRecord) (hdoc : alookup m'.mem.documents doc_id = some doc) :
    ∃ doc',
      alookup (setStatusCompletedAndSave
          (update_step_status m' doc_id .transform .completed fp none) doc_id).mem.documents
        doc_id = some doc' ∧
      doc'.steps.transform.status = .completed ∧ doc'.status = .completed := by
  obtain ⟨updDoc, hlu, hsteps, _⟩ :=
    update_lookup_self m' doc_id .transform .completed fp none doc hdoc
  refine ⟨_, setStatus_lookup_self _ _ _ hlu, ?_, rfl⟩
  show updDoc.steps.transform.status = .completed
  rw [hsteps]
  rfl

/-- Claim C5: in a structure-stage run where the structuring call raises
    for one page's text and one figure's text but succeeds elsewhere, the
    stage does not abort: the persisted artifact carries the reduced
    fallback placeholder for the failing page and figure and the real
    structured content for the succeeding ones, and the transform step is
    still recorded Completed. -/
theorem claim_C5 (env : Env) (m : MgrState) (doc_id : String) (doc : DocumentRecord)
    (aj : AgenticOutput)
    (hdoc : alookup m.mem.documents doc_id = some doc)
    (hag : doc.steps.agentic_process.status = .completed)
    (hout : m.fs.read (processedOutPath m.cfg.work_dir doc) = none)
    (hread : m.fs.read ((doc.files.get .agentic_process).getD "") = some (.agentic aj))
    (hw : env.writeProcessed (mistral_transform env doc_id aj doc m.clock) = .success)
    (n1 n2 : Nat) (hn1a : 1 ≤ n1) (hn1b : n1 ≤ totalPagesOf aj.document.chunks)
    (hn2a : 1 ≤ n2) (hn2b : n2 ≤ totalPagesOf aj.document.chunks)
    (err : String) (R : PageRecord)
    (htrim1 : trimS (pageTextOf aj.document.chunks n1) ≠ "")
    (herr1 : env.chatJson (pagePrompt (pageTextOf aj.document.chunks n1)) = .error err)
    (htrim2 : trimS (pageTextOf aj.document.chunks n2) ≠ "")
    (hok2 : env.chatJson (pagePrompt (pageTextOf aj.document.chunks n2)) = .ok R)
    (j1 : Nat) (fig1 : FigureData) (errf : String)
    (hfig1 : (pageFigures aj.document.figures n1)[j1]? = some fig1)
    (htrimf1 : trimS fig1.text ≠ "")
    (herrf1 : env.chatJson (imagePrompt fig1.text) = .error errf)
    (j2 : Nat) (fig2 : FigureData) (Rf : PageRecord)
    (hfig2 : (pageFigures aj.document.figures n2)[j2]? = some fig2)
    (htrimf2 : trimS fig2.text ≠ "")
    (hokf2 : env.chatJson (imagePrompt fig2.text) = .ok Rf) :
    (transform_to_pdf_processed env m doc_id).2 = true ∧
    (∃ doc',
      alookup (transform_to_pdf_processed env m doc_id).1.mem.documents doc_id
        = some doc' ∧
      doc'.steps.transform.status = .completed ∧ doc'.status = .completed) ∧
    ((transform_to_pdf_processed env m doc_id).1.fs.read
        (processedOutPath m.cfg.work_dir doc)
      = some (.processed (mistral_transform env doc_id aj doc m.clock))) ∧
    (∃ po,
      (mistral_transform env doc_id aj doc m.clock).content[n1 - 1]? = some po ∧
      po.structured_page_content = fallbackPageRecord (dropLastExt doc.original_filename)
        (pageTextOf aj.document.chunks n1) doc.metadata ∧
      fallbackImageRecord fig1.text j1 n1 doc.metadata ∈ po.structured_image_content) ∧
    (∃ po,
      (mistral_transform env doc_id aj doc m.clock).content[n2 - 1]? = some po ∧
      po.structured_page_content = R ∧ Rf ∈ po.structured_image_content) := by
  rw [c5_success_run env m doc_id doc aj hdoc hag hout hread hw]
  refine ⟨rfl, ?_, ?_, ?_, ?_⟩
  · exact transform_mark_completed _ doc_id _ doc hdoc
  · rw [setStatus_fs, update_fs]
    exact FS.read_write_self _ _ _
  · refine ⟨_, mistral_transform_content_get env doc_id aj doc m.clock n1 hn1a hn1b, ?_, ?_⟩
    · show mistral_structure_page env (dropLastExt doc.original_filename)
        (pageTextOf aj.document.chunks n1) doc.metadata aj.metadata.source_url = _
      exact structured_page_fallback env _ _ _ _ err htrim1 herr1
    · exact image_mem_of_getElem env _ _ _ _ _ n1 j1 fig1 _ hfig1
        (structured_image_fallback env fig1.text j1 n1 doc.metadata errf htrimf1 herrf1)
  · refine ⟨_, mistral_transform_content_get env doc_id aj doc m.clock n2 hn2a hn2b, ?_, ?_⟩
    · show mistral_structure_page env (dropLastExt doc.original_filename)
        (pageTextOf aj.document.chunks n2) doc.metadata aj.metadata.source_url = _
      exact structured_page_ok env _ _ _ _ R htrim2 hok2
    · exact image_mem_of_getElem env _ _ _ _ _ n2 j2 fig2 _ hfig2
        (structured_image_ok env fig2.text j2 n2 doc.metadata Rf htrimf2 hokf2)

def okRec : PageRecord :=
  { file_name := "ok", topics := ["t"], languages := ["en"], description := "ok",
    ocr_contents := [] }

def chunkA : ChunkData :=
  { id := "chunk_0", content := "txtA", type := "text",
    grounding := some [{ page := some 1, bbox := none }] }

def chunkB : ChunkData :=
  { id := "chunk_1", content := "txtB", type := "text",
    grounding := some [{ page := some 2, bbox := none }] }

def figF1 : FigureData :=
  { id := "figure_0", text := "figbad", type := "figure",
    grounding := some [{ page := some 1, bbox := none }] }

def figF2 : FigureData :=
  { id := "figure_1", text := "figgood", type := "figure",
    grounding := some [{ page := some 2, bbox := none }] }

def ajC5 : AgenticOutput :=
  { metadata :=
      { document_id := "d1", source_url := "http://h/a.pdf", pdf_path := "work/pdfs/a.pdf",
        processed_date := 0, total_chunks := 2, total_figures := 2,
        total_characters := 2 },
    document :=
      { id := "d1", filename := "a.pdf", markdown := "md",
        chunks := [chunkA, chunkB], figures := [figF1, figF2] } }

def docC5 : DocumentRecord :=
  { url := "http://h/a.pdf", original_filename := "a.pdf", metadata := Metadata.empty,
    status := .pending, created_at := 0,
    steps :=
      { download := { status := .completed, timestamp := some 1 },
        agentic_process := { status := .completed, timestamp := some 2 },
        transform := { status := .pending, timestamp := none } },
    files := { download := some "work/pdfs/a.pdf",
               agentic_process := some "work/agentic_outputs/a.json", transform := none },
    errors := [] }

def mgrC5 : MgrState :=
  { cfg := { work_dir := "work", docIdHash := fun _ => "d1" },
    mem := { created_at := 0, updated_at := none, pipeline_version := "1.0",
             documents := [("d1", docC5)] },
    disk := none,
    fs := ⟨[("work/agentic_outputs/a.json", .agentic ajC5)]⟩,
    clock := 9, trace := [] }

/-- A structuring service that raises for page text `txtA` and figure text
    `figbad`, and succeeds for everything else. -/
def envC5 : Env :=
  { httpGet := fun _ => .error "offline",
    agenticParse := fun _ => .error "offline",
    chatJson := fun p =>
      if p = pagePrompt "txtA" then .error "b1"
      else if p = imagePrompt "figbad" then .error "b2"
      else .ok okRec,
    writeAgentic := fun _ => .success,
    writeProcessed := fun _ => .success }

set_option maxRecDepth 10000 in
theorem claim_C5_witness :
    (transform_to_pdf_processed envC5 mgrC5 "d1").2 = true ∧
    (∃ doc',
      alookup (transform_to_pdf_processed envC5 mgrC5 "d1").1.mem.documents "d1"
        = some doc' ∧
      doc'.steps.transform.status = .completed ∧ doc'.status = .completed) ∧
    ((transform_to_pdf_processed envC5 mgrC5 "d1").1.fs.read
        (processedOutPath mgrC5.cfg.work_dir docC5)
      = some (.processed (mistral_transform envC5 "d1" ajC5 docC5 mgrC5.clock))) ∧
    (∃ po,
      (mistral_transform envC5 "d1" ajC5 docC5 mgrC5.clock).content[1 - 1]? = some po ∧
      po.structured_page_content = fallbackPageRecord (dropLastExt docC5.original_filename)
        (pageTextOf ajC5.document.chunks 1) docC5.metadata ∧
      fallbackImageRecord figF1.text 0 1 docC5.metadata ∈ po.structured_image_content) ∧
    (∃ po,
      (mistral_transform envC5 "d1" ajC5 docC5 mgrC5.clock).content[2 - 1]? = some po ∧
      po.structured_page_content = okRec ∧ okRec ∈ po.structured_image_content) :=
  claim_C5 envC5 mgrC5 "d1" docC5 ajC5 rfl rfl (by decide) (by decide) rfl
    1 2 (by decide) (by decide) (by decide) (by decide)
    "b1" okRec (by decide) rfl (by decide) rfl
    0 figF1 "b2" (by decide) (by decide) rfl
    0 figF2 okRec (by decide) (by decide) rfl

/-! ## Claims C6 and C7: frame lemmas for registration and stages. -/

theorem add_document_preserves (m : MgrState) (url : String) (did fn : Option String)
    (id : String) (r : DocumentRecord) (h : alookup m.mem.documents id = some r) :
    alookup (add_document m url did fn).1.mem.documents id = some r := by
  rcases hl : alookup m.mem.documents (did.getD (m.cfg.docIdHash url)) with _ | x
  · simp only [add_document, hl, saveState]
    have hne : did.getD (m.cfg.docIdHash url) ≠ id := by
      intro he
      rw [he, h] at hl
      cases hl
    rw [alookup_aset_ne _ _ _ _ hne]
    exact h
  · simp only [add_document, hl]
    exact h

theorem add_json_preserves (m : MgrState) (info : DocInfo)
    (id : String) (r : DocumentRecord) (h : alookup m.mem.documents id = some r) :
    alookup (add_document_from_json m info).1.mem.documents id = some r := by
  rcases hs : info.source with _ | url
  · simpa [add_document_from_json, hs] using h
  · rcases hn : info.name with _ | nm
    · simpa [add_document_from_json, hs, hn] using h
    · rcases hl : alookup m.mem.documents (m.cfg.docIdHash url) with _ | x
      · simp only [add_document_from_json, hs, hn, hl, saveState]
        have hne : m.cfg.docIdHash url ≠ id := by
          intro he
          rw [he, h] at hl
          cases hl
        rw [alookup_aset_ne _ _ _ _ hne]
        exact h
      · simpa [add_document_from_json, hs, hn, hl] using h

theorem add_document_trace (m : MgrState) (url : String) (did fn : Option String) :
    (add_document m url did fn).1.trace = m.trace := by
  rcases hl : alookup m.mem.documents (did.getD (m.cfg.docIdHash url)) with _ | x <;>
    simp [add_document, hl, saveState]

theorem add_json_trace (m : MgrState) (info : DocInfo) :
    (add_document_from_json m info).1.trace = m.trace := by
  rcases hs : info.source with _ | url
  · simp [add_document_from_json, hs]
  · rcases hn : info.name with _ | nm
    · simp [add_document_from_json, hs, hn]
    · rcases hl : alookup m.mem.documents (m.cfg.docIdHash url) with _ | x <;>
        simp [add_document_from_json, hs, hn, hl, saveState]

theorem add_document_fs (m : MgrState) (url : String) (did fn : Option String) :
    (add_document m url did fn).1.fs = m.fs := by
  rcases hl : alookup m.mem.documents (did.getD (m.cfg.docIdHash url)) with _ | x <;>
    simp [add_document, hl, saveState]

theorem add_json_fs (m : MgrState) (info : DocInfo) :
    (add_document_from_json m info).1.fs = m.fs := by
  rcases hs : info.source with _ | url
  · simp [add_document_from_json, hs]
  · rcases hn : info.name with _ | nm
    · simp [add_document_from_json, hs, hn]
    · rcases hl : alookup m.mem.documents (m.cfg.docIdHash url) with _ | x <;>
        simp [add_document_from_json, hs, hn, hl, saveState]

theorem setStatus_cfg (m : MgrState) (doc_id : String) :
    (setStatusCompletedAndSave m doc_id).cfg = m.cfg := by
  rcases h : alookup m.mem.documents doc_id with _ | doc <;>
    simp [setStatusCompletedAndSave, h, saveState]

theorem download_trace_eq (env : Env) (m : MgrState) (doc_id : String) :
    (download_pdf env m doc_id).1.trace = m.trace ++ [Event.downloadInvoked doc_id] := by
  rcases h : alookup m.mem.documents doc_id with _ | doc
  · simp [download_pdf, pushEvent, h]
  · simp only [download_pdf, pushEvent, h]
    split
    · (dsimp only; rw [update_trace])
    · split
      · (dsimp only; rw [update_trace])
      · (dsimp only; rw [update_trace])

theorem download_lookup_ne (env : Env) (m : MgrState) (doc_id id : String)
    (hne : doc_id ≠ id) :
    alookup (download_pdf env m doc_id).1.mem.documents id
      = alookup m.mem.documents id := by
  rcases h : alookup m.mem.documents doc_id with _ | doc
  · simp [download_pdf, pushEvent, h]
  · simp only [download_pdf, pushEvent, h]
    split
    · (dsimp only; rw [update_lookup_ne _ _ _ _ _ _ _ hne])
    · split
      · (dsimp only; rw [update_lookup_ne _ _ _ _ _ _ _ hne])
      · (dsimp only; rw [update_lookup_ne _ _ _ _ _ _ _ hne])

theorem download_cfg_eq (env : Env) (m : MgrState) (doc_id : String) :
    (download_pdf env m doc_id).1.cfg = m.cfg := by
  rcases h : alookup m.mem.documents doc_id with _ | doc
  · simp [download_pdf, pushEvent, h]
  · simp only [download_pdf, pushEvent, h]
    split
    · (dsimp only; rw [update_cfg])
    · split
      · (dsimp only; rw [update_cfg])
      · (dsimp only; rw [update_cfg])

theorem agentic_trace_eq (env : Env) (m : MgrState) (doc_id : String) :
    (process_with_agentic_doc env m doc_id).1.trace
      = m.trace ++ [Event.agenticInvoked doc_id] := by
  rcases h : alookup m.mem.documents doc_id with _ | doc
  · simp [process_with_agentic_doc, pushEvent, h]
  · simp only [process_with_agentic_doc, pushEvent, h]
    split
    · rfl
    · split
      · (dsimp only; rw [update_trace])
      · split
        · (dsimp only; rw [update_trace])
        · split
          · (dsimp only; rw [update_trace])
          · (dsimp only; rw [update_trace])

theorem agentic_lookup_ne (env : Env) (m : MgrState) (doc_id id : String)
    (hne : doc_id ≠ id) :
    alookup (process_with_agentic_doc env m doc_id).1.mem.documents id
      = alookup m.mem.documents id := by
  rcases h : alookup m.mem.documents doc_id with _ | doc
  · simp [process_with_agentic_doc, pushEvent, h]
  · simp only [process_with_agentic_doc, pushEvent, h]
    split
    · rfl
    · split
      · (dsimp only; rw [update_lookup_ne _ _ _ _ _ _ _ hne])
      · split
        · (dsimp only; rw [update_lookup_ne _ _ _ _ _ _ _ hne])
        · split
          · (dsimp only; rw [update_lookup_ne _ _ _ _ _ _ _ hne])
          · (dsimp only; rw [update_lookup_ne _ _ _ _ _ _ _ hne])

theorem agentic_cfg_eq (env : Env) (m : MgrState) (doc_id : String) :
    (process_with_agentic_doc env m doc_id).1.cfg = m.cfg := by
  rcases h : alookup m.mem.documents doc_id with _ | doc
  · simp [process_with_agentic_doc, pushEvent, h]
  · simp only [process_with_agentic_doc, pushEvent, h]
    split
    · rfl
    · split
      · (dsimp only; rw [update_cfg])
      · split
        · (dsimp only; rw [update_cfg])
        · split
          · (dsimp only; rw [update_cfg])
          · (dsimp only; rw [update_cfg])

theorem transform_trace_eq (env : Env) (m : MgrState) (doc_id : String) :
    (transform_to_pdf_processed env m doc_id).1.trace
      = m.trace ++ [Event.transformInvoked doc_id] := by
  rcases h : alookup m.mem.documents doc_id with _ | doc
  · simp [transform_to_pdf_processed, pushEvent, h]
  · simp only [transform_to_pdf_processed, pushEvent, h]
    split
    · rfl
    · split
      · (dsimp only; rw [update_trace])
      · split
        · (dsimp only; rw [update_trace])
        · split
          · (dsimp only; rw [setStatus_trace, update_trace])
          · (dsimp only; rw [update_trace])

theorem transform_lookup_ne (env : Env) (m : MgrState) (doc_id id : String)
    (hne : doc_id ≠ id) :
    alookup (transform_to_pdf_processed env m doc_id).1.mem.documents id
      = alookup m.mem.documents id := by
  rcases h : alookup m.mem.documents doc_id with _ | doc
  · simp [transform_to_pdf_processed, pushEvent, h]
  · simp only [transform_to_pdf_processed, pushEvent, h]
    split
    · rfl
    · split
      · (dsimp only; rw [update_lookup_ne _ _ _ _ _ _ _ hne])
      · split
        · (dsimp only; rw [update_lookup_ne _ _ _ _ _ _ _ hne])
        · split
          · (dsimp only; rw [setStatus_lookup_ne _ _ _ hne, update_lookup_ne _ _ _ _ _ _ _ hne])
          · (dsimp only; rw [update_lookup_ne _ _ _ _ _ _ _ hne])

theorem transform_cfg_eq (env : Env) (m : MgrState) (doc_id : String) :
    (transform_to_pdf_processed env m doc_id).1.cfg = m.cfg := by
  rcases h : alookup m.mem.documents doc_id with _ | doc
  · simp [transform_to_pdf_processed, pushEvent, h]
  · simp only [transform_to_pdf_processed, pushEvent, h]
    split
    · rfl
    · split
      · (dsimp only; rw [update_cfg])
      · split
        · (dsimp only; rw [update_cfg])
        · split
          · (dsimp only; rw [setStatus_cfg, update_cfg])
          · (dsimp only; rw [update_cfg])

/-- The frame a resume run must preserve on a record: the download and
    extract step entries (status and timestamp), their recorded artifact
    paths, and the identity fields the output paths derive from. -/
def dlAgFrame (r r' : DocumentRecord) : Prop :=
  r'.steps.download = r.steps.download ∧
  r'.steps.agentic_process = r.steps.agentic_process ∧
  r'.files.download = r.files.download ∧
  r'.files.agentic_process = r.files.agentic_process ∧
  r'.url = r.url ∧ r'.original_filename = r.original_filename ∧
  r'.metadata = r.metadata ∧ r'.created_at = r.created_at

theorem dlAgFrame_refl (r : DocumentRecord) : dlAgFrame r r :=
  ⟨rfl, rfl, rfl, rfl, rfl, rfl, rfl, rfl⟩

theorem dlAgFrame_trans {r1 r2 r3 : DocumentRecord}
    (h12 : dlAgFrame r1 r2) (h23 : dlAgFrame r2 r3) : dlAgFrame r1 r3 := by
  obtain ⟨a1, a2, a3, a4, a5, a6, a7, a8⟩ := h12
  obtain ⟨b1, b2, b3, b4, b5, b6, b7, b8⟩ := h23
  exact ⟨b1.trans a1, b2.trans a2, b3.trans a3, b4.trans a4, b5.trans a5,
    b6.trans a6, b7.trans a7, b8.trans a8⟩

theorem update_transform_frame (m : MgrState) (doc_id : String)
    (status : ProcessingStatus) (fp err : Option String) (doc : DocumentRecord)
    (hdoc : alookup m.mem.documents doc_id = some doc) :
    ∃ doc',
      alookup (update_step_status m doc_id .transform status fp err).mem.documents doc_id
        = some doc' ∧ dlAgFrame doc doc' := by
  obtain ⟨doc', hl, hsteps, hfiles, _, _, hurl, hfn, hmeta, hca⟩ :=
    update_lookup_self m doc_id .transform status fp err doc hdoc
  refine ⟨doc', hl, ?_, ?_, ?_, ?_, hurl, hfn, hmeta, hca⟩
  · rw [hsteps]; rfl
  · rw [hsteps]; rfl
  · rw [hfiles]
    rcases fp with _ | p
    · rfl
    · by_cases hp : p = "" <;> simp [hp, FilesMap.set]
  · rw [hfiles]
    rcases fp with _ | p
    · rfl
    · by_cases hp : p = "" <;> simp [hp, FilesMap.set]

theorem setStatus_frame (m : MgrState) (doc_id : String) (doc : DocumentRecord)
    (hdoc : alookup m.mem.documents doc_id = some doc) :
    ∃ doc',
      alookup (setStatusCompletedAndSave m doc_id).mem.documents doc_id = some doc' ∧
      dlAgFrame doc doc' :=
  ⟨{ doc with status := .completed }, setStatus_lookup_self m doc_id doc hdoc,
   rfl, rfl, rfl, rfl, rfl, rfl, rfl, rfl⟩

/-- The structure stage preserves the download/extract entries of its own
    record: every path through `transform_to_pdf_processed` only writes
    the `transform` step, the `transform` artifact path, the error list and
    the overall status. -/
theorem transform_success_tail_frame (m' : MgrState) (doc_id : String)
    (fp : Option String) (doc : DocumentRecord)
    (hdoc : alookup m'.mem.documents doc_id = some doc) :
    ∃ doc',
      alookup (setStatusCompletedAndSave
          (update_step_status m' doc_id .transform .completed fp none)
          doc_id).mem.documents doc_id = some doc' ∧
      dlAgFrame doc doc' := by
  obtain ⟨d1, hl1, hfr1⟩ := update_transform_frame m' doc_id .completed fp none doc hdoc
  obtain ⟨d2, hl2, hfr2⟩ := setStatus_frame _ doc_id d1 hl1
  exact ⟨d2, hl2, dlAgFrame_trans hfr1 hfr2⟩

/-- The structure stage preserves the download/extract entries of its own
    record: every path through `transform_to_pdf_processed` only writes
    the `transform` step, the `transform` artifact path, the error list and
    the overall status. -/
theorem transform_self_frame (env : Env) (m : MgrState) (doc_id : String)
    (doc : DocumentRecord) (hdoc : alookup m.mem.documents doc_id = some doc) :
    ∃ doc',
      alookup (transform_to_pdf_processed env m doc_id).1.mem.documents doc_id
        = some doc' ∧ dlAgFrame doc doc' := by
  simp only [transform_to_pdf_processed, pushEvent, hdoc]
  split
  · exact ⟨doc, hdoc, dlAgFrame_refl doc⟩
  · split
    · dsimp only
      exact update_transform_frame _ doc_id _ _ _ doc hdoc
    · split
      · dsimp only
        exact update_transform_frame _ doc_id _ _ _ doc hdoc
      · split
        · dsimp only
          exact transform_success_tail_frame _ doc_id _ doc hdoc
        · dsimp only
          exact update_transform_frame _ doc_id _ _ _ doc hdoc

/-- The structure stage writes no file other than its own output path. -/
theorem transform_fs_frame (env : Env) (m : MgrState) (doc_id : String)
    (doc : DocumentRecord) (hdoc : alookup m.mem.documents doc_id = some doc) :
    ∀ p, p ≠ processedOutPath m.cfg.work_dir doc →
      (transform_to_pdf_processed env m doc_id).1.fs.read p = m.fs.read p := by
  intro p hp
  simp only [transform_to_pdf_processed, pushEvent, hdoc]
  split
  · rfl
  · split
    · dsimp only
      rw [update_fs]
    · split
      · dsimp only
        rw [update_fs]
      · split
        · dsimp only
          rw [setStatus_fs, update_fs]
          exact FS.read_write_ne m.fs (processedOutPath m.cfg.work_dir doc) p _ (Ne.symm hp)
        · dsimp only
          rw [update_fs]
          exact FS.read_write_ne m.fs (processedOutPath m.cfg.work_dir doc) p _ (Ne.symm hp)

/-- Effects a loop iteration for another document may have, as seen from
    document `id`: the record of `id` is untouched, the configuration is
    unchanged, and every appended trace event belongs to `doc_id`. -/
def NeFrame (id doc_id : String) (m m' : MgrState) : Prop :=
  alookup m'.mem.documents id = alookup m.mem.documents id ∧
  m'.cfg = m.cfg ∧
  ∃ d, m'.trace = m.trace ++ d ∧ ∀ ev ∈ d, ev.docId = doc_id

theorem NeFrame_refl (id doc_id : String) (m : MgrState) : NeFrame id doc_id m m :=
  ⟨rfl, rfl, [], by simp, by simp⟩

theorem NeFrame_trans {id doc_id : String} {m1 m2 m3 : MgrState}
    (h12 : NeFrame id doc_id m1 m2) (h23 : NeFrame id doc_id m2 m3) :
    NeFrame id doc_id m1 m3 := by
  obtain ⟨ha1, hc1, d1, ht1, hd1⟩ := h12
  obtain ⟨ha2, hc2, d2, ht2, hd2⟩ := h23
  refine ⟨ha2.trans ha1, hc2.trans hc1, d1 ++ d2, ?_, ?_⟩
  · rw [ht2, ht1, List.append_assoc]
  · intro ev hev
    rcases List.mem_append.mp hev with h | h
    · exact hd1 ev h
    · exact hd2 ev h

theorem NeFrame_download (env : Env) (m : MgrState) (doc_id id : String)
    (hne : doc_id ≠ id) : NeFrame id doc_id m (download_pdf env m doc_id).1 :=
  ⟨download_lookup_ne env m doc_id id hne, download_cfg_eq env m doc_id,
   [Event.downloadInvoked doc_id], download_trace_eq env m doc_id, by simp [Event.docId]⟩

theorem NeFrame_agentic (env : Env) (m : MgrState) (doc_id id : String)
    (hne : doc_id ≠ id) : NeFrame id doc_id m (process_with_agentic_doc env m doc_id).1 :=
  ⟨agentic_lookup_ne env m doc_id id hne, agentic_cfg_eq env m doc_id,
   [Event.agenticInvoked doc_id], agentic_trace_eq env m doc_id, by simp [Event.docId]⟩

theorem NeFrame_transform (env : Env) (m : MgrState) (doc_id id : String)
    (hne : doc_id ≠ id) : NeFrame id doc_id m (transform_to_pdf_processed env m doc_id).1 :=
  ⟨transform_lookup_ne env m doc_id id hne, transform_cfg_eq env m doc_id,
   [Event.transformInvoked doc_id], transform_trace_eq env m doc_id, by simp [Event.docId]⟩

theorem NeFrame_stepTransform (env : Env) (st : MgrState × List (String × RunEntry))
    (doc_id id : String) (hne : doc_id ≠ id) :
    NeFrame id doc_id st.1 (stepTransformJson env st doc_id).1 := by
  unfold stepTransformJson
  split
  · exact NeFrame_refl id doc_id st.1
  · split
    · dsimp only
      split
      · exact NeFrame_transform env st.1 doc_id id hne
      · exact NeFrame_transform env st.1 doc_id id hne
    · dsimp only
      exact NeFrame_refl id doc_id st.1

theorem NeFrame_stepAgentic (env : Env) (st : MgrState × List (String × RunEntry))
    (doc_id id : String) (hne : doc_id ≠ id) :
    NeFrame id doc_id st.1 (stepAgenticJson env st doc_id).1 := by
  unfold stepAgenticJson
  split
  · exact NeFrame_refl id doc_id st.1
  · split
    · dsimp only
      split
      · exact NeFrame_agentic env st.1 doc_id id hne
      · exact NeFrame_trans (NeFrame_agentic env st.1 doc_id id hne)
          (NeFrame_stepTransform env _ doc_id id hne)
    · dsimp only
      exact NeFrame_stepTransform env _ doc_id id hne

theorem NeFrame_processOne (env : Env) (st : MgrState × List (String × RunEntry))
    (doc_id id : String) (hne : doc_id ≠ id) :
    NeFrame id doc_id st.1 (processOneFromJson env st doc_id).1 := by
  unfold processOneFromJson
  split
  · exact NeFrame_refl id doc_id st.1
  · split
    · exact NeFrame_refl id doc_id st.1
    · split
      · dsimp only
        split
        · exact NeFrame_download env st.1 doc_id id hne
        · exact NeFrame_trans (NeFrame_download env st.1 doc_id id hne)
            (NeFrame_stepAgentic env _ doc_id id hne)
      · dsimp only
        exact NeFrame_stepAgentic env _ doc_id id hne

theorem processedOutPath_congr {r r' : DocumentRecord} (w : String)
    (hfr : dlAgFrame r r') : processedOutPath w r' = processedOutPath w r := by
  unfold processedOutPath outputDirsFor dropLastExt
  rw [hfr.2.2.2.2.2.1, hfr.2.2.2.2.2.2.1]

theorem stepTransform_self (env : Env) (st : MgrState × List (String × RunEntry))
    (id : String) (r r' : DocumentRecord)
    (hr' : alookup st.1.mem.documents id = some r') (hfr : dlAgFrame r r') :
    (∃ r'', alookup (stepTransformJson env st id).1.mem.documents id = some r'' ∧
       dlAgFrame r r'') ∧
    (stepTransformJson env st id).1.cfg = st.1.cfg ∧
    ((stepTransformJson env st id).1.trace = st.1.trace ∨
     (stepTransformJson env st id).1.trace = st.1.trace ++ [Event.transformInvoked id]) ∧
    (r'.steps.transform.status ≠ .completed →
      (stepTransformJson env st id).1.trace = st.1.trace ++ [Event.transformInvoked id]) ∧
    (∀ p, p ≠ processedOutPath st.1.cfg.work_dir r →
      (stepTransformJson env st id).1.fs.read p = st.1.fs.read p) := by
  by_cases hc : r'.steps.transform.status ≠ .completed
  · have hstep : (stepTransformJson env st id).1 = (transform_to_pdf_processed env st.1 id).1 := by
      simp only [stepTransformJson, hr', if_pos hc]
      split <;> rfl
    rw [hstep]
    obtain ⟨r'', hl, hfr2⟩ := transform_self_frame env st.1 id r' hr'
    refine ⟨⟨r'', hl, dlAgFrame_trans hfr hfr2⟩, transform_cfg_eq env st.1 id,
      Or.inr (transform_trace_eq env st.1 id), fun _ => transform_trace_eq env st.1 id, ?_⟩
    intro p hp
    refine transform_fs_frame env st.1 id r' hr' p ?_
    rw [processedOutPath_congr st.1.cfg.work_dir hfr]
    exact hp
  · have hstep : (stepTransformJson env st id).1 = st.1 := by
      simp [stepTransformJson, hr', hc]
    rw [hstep]
    exact ⟨⟨r', hr', hfr⟩, rfl, Or.inl rfl, fun hcontra => absurd hcontra hc,
      fun p _ => rfl⟩

theorem stepAgentic_self (env : Env) (st : MgrState × List (String × RunEntry))
    (id : String) (r r' : DocumentRecord)
    (hr' : alookup st.1.mem.documents id = some r') (hfr : dlAgFrame r r')
    (haC : r.steps.agentic_process.status = .completed) :
    (∃ r'', alookup (stepAgenticJson env st id).1.mem.documents id = some r'' ∧
       dlAgFrame r r'') ∧
    (stepAgenticJson env st id).1.cfg = st.1.cfg ∧
    ((stepAgenticJson env st id).1.trace = st.1.trace ∨
     (stepAgenticJson env st id).1.trace = st.1.trace ++ [Event.transformInvoked id]) ∧
    (r'.steps.transform.status ≠ .completed →
      (stepAgenticJson env st id).1.trace = st.1.trace ++ [Event.transformInvoked id]) ∧
    (∀ p, p ≠ processedOutPath st.1.cfg.work_dir r →
      (stepAgenticJson env st id).1.fs.read p = st.1.fs.read p) := by
  have hag : r'.steps.agentic_process.status = .completed := by
    rw [hfr.2.1]
    exact haC
  have hstep : (stepAgenticJson env st id).1 = (stepTransformJson env (st.1, st.2) id).1 := by
    simp [stepAgenticJson, hr', hag]
  rw [hstep]
  exact stepTransform_self env (st.1, st.2) id r r' hr' hfr

theorem processOne_self (env : Env) (st : MgrState × List (String × RunEntry))
    (id : String) (r r' : DocumentRecord)
    (hr' : alookup st.1.mem.documents id = some r') (hfr : dlAgFrame r r')
    (hdC : r.steps.download.status = .completed)
    (haC : r.steps.agentic_process.status = .completed) :
    (∃ r'', alookup (processOneFromJson env st id).1.mem.documents id = some r'' ∧
       dlAgFrame r r'') ∧
    (processOneFromJson env st id).1.cfg = st.1.cfg ∧
    ((processOneFromJson env st id).1.trace = st.1.trace ∨
     (processOneFromJson env st id).1.trace = st.1.trace ++ [Event.transformInvoked id]) ∧
    (r'.status ≠ .completed → r'.steps.transform.status ≠ .completed →
      (processOneFromJson env st id).1.trace = st.1.trace ++ [Event.transformInvoked id]) ∧
    (∀ p, p ≠ processedOutPath st.1.cfg.work_dir r →
      (processOneFromJson env st id).1.fs.read p = st.1.fs.read p) := by
  have hdl : r'.steps.download.status = .completed := by
    rw [hfr.1]
    exact hdC
  by_cases hcompl : r'.status = .completed
  · have hstep : (processOneFromJson env st id).1 = st.1 := by
      simp [processOneFromJson, hr', hcompl]
    rw [hstep]
    exact ⟨⟨r', hr', hfr⟩, rfl, Or.inl rfl, fun hcontra _ => absurd hcompl hcontra,
      fun p _ => rfl⟩
  · have hstep : (processOneFromJson env st id).1 = (stepAgenticJson env (st.1, st.2) id).1 := by
      simp [processOneFromJson, hr', hcompl, hdl]
    rw [hstep]
    obtain ⟨hrec, hcfg, htr, hpos, hfs⟩ := stepAgentic_self env (st.1, st.2) id r r' hr' hfr haC
    exact ⟨hrec, hcfg, htr, fun _ ht => hpos ht, hfs⟩

theorem foldJson_frame (env : Env) (id : String) (r : DocumentRecord)
    (hdC : r.steps.download.status = .completed)
    (haC : r.steps.agentic_process.status = .completed) :
    ∀ (ids : List String) (st : MgrState × List (String × RunEntry))
      (r' : DocumentRecord),
      alookup st.1.mem.documents id = some r' → dlAgFrame r r' →
      ∃ (r'' : DocumentRecord) (d : List Event),
        alookup (ids.foldl (processOneFromJson env) st).1.mem.documents id = some r'' ∧
        dlAgFrame r r'' ∧
        (ids.foldl (processOneFromJson env) st).1.trace = st.1.trace ++ d ∧
        (∀ ev ∈ d, ev.docId = id → ev = Event.transformInvoked id) ∧
        (ids.foldl (processOneFromJson env) st).1.cfg = st.1.cfg := by
  intro ids
  induction ids with
  | nil =>
    intro st r' hr' hfr
    exact ⟨r', [], hr', hfr, by simp, by simp, rfl⟩
  | cons doc_id rest ih =>
    intro st r' hr' hfr
    simp only [List.foldl_cons]
    by_cases h : doc_id = id
    · subst h
      obtain ⟨⟨r1, hl1, hfr1⟩, hcfg1, htr1, _, _⟩ :=
        processOne_self env st doc_id r r' hr' hfr hdC haC
      obtain ⟨r2, d2, hl2, hfr2, htr2, hd2, hcfg2⟩ :=
        ih (processOneFromJson env st doc_id) r1 hl1 hfr1
      rcases htr1 with htr1 | htr1
      · exact ⟨r2, d2, hl2, hfr2, by rw [htr2, htr1], hd2, hcfg2.trans hcfg1⟩
      · refine ⟨r2, Event.transformInvoked doc_id :: d2, hl2, hfr2, ?_, ?_, hcfg2.trans hcfg1⟩
        · rw [htr2, htr1]
          simp
        · intro ev hev _
          rcases List.mem_cons.mp hev with hm | hm
          · exact hm
          · exact hd2 ev hm (by assumption)
    · obtain ⟨hlk, hcfg1, d1, htr1, hd1⟩ := NeFrame_processOne env st doc_id id h
      have hr'1 : alookup (processOneFromJson env st doc_id).1.mem.documents id = some r' := by
        rw [hlk]
        exact hr'
      obtain ⟨r2, d2, hl2, hfr2, htr2, hd2, hcfg2⟩ :=
        ih (processOneFromJson env st doc_id) r' hr'1 hfr
      refine ⟨r2, d1 ++ d2, hl2, hfr2, ?_, ?_, hcfg2.trans hcfg1⟩
      · rw [htr2, htr1, List.append_assoc]
      · intro ev hev hid
        rcases List.mem_append.mp hev with hm | hm
        · have : doc_id = id := by
            rw [← hd1 ev hm]
            exact hid
          exact absurd this h
        · exact hd2 ev hm hid

theorem foldJson_pristine (env : Env) (id : String) (r : DocumentRecord)
    (hdC : r.steps.download.status = .completed)
    (haC : r.steps.agentic_process.status = .completed)
    (hs : r.status ≠ .completed) (ht : r.steps.transform.status ≠ .completed) :
    ∀ (ids : List String) (st : MgrState × List (String × RunEntry)),
      alookup st.1.mem.documents id = some r → id ∈ ids →
      ∃ d, (ids.foldl (processOneFromJson env) st).1.trace = st.1.trace ++ d ∧
        Event.transformInvoked id ∈ d := by
  intro ids
  induction ids with
  | nil =>
    intro st _ hmem
    cases hmem
  | cons doc_id rest ih =>
    intro st hr hmem
    simp only [List.foldl_cons]
    by_cases h : doc_id = id
    · subst h
      obtain ⟨⟨r1, hl1, hfr1⟩, _, _, hpos, _⟩ :=
        processOne_self env st doc_id r r hr (dlAgFrame_refl r) hdC haC
      have htr1 := hpos hs ht
      obtain ⟨r2, d2, _, _, htr2, _, _⟩ :=
        foldJson_frame env doc_id r hdC haC rest (processOneFromJson env st doc_id) r1 hl1 hfr1
      refine ⟨Event.transformInvoked doc_id :: d2, ?_, by simp⟩
      rw [htr2, htr1]
      simp
    · rcases List.mem_cons.mp hmem with hco | hmem'
      · exact absurd hco.symm h
      · obtain ⟨hlk, _, d1, htr1, _⟩ := NeFrame_processOne env st doc_id id h
        have hr1 : alookup (processOneFromJson env st doc_id).1.mem.documents id = some r := by
          rw [hlk]
          exact hr
        obtain ⟨d2, htr2, hmem2⟩ := ih (processOneFromJson env st doc_id) hr1 hmem'
        exact ⟨d1 ++ d2, by rw [htr2, htr1, List.append_assoc],
          List.mem_append.mpr (Or.inr hmem2)⟩

theorem foldJson_fs (env : Env) (id : String) (r : DocumentRecord)
    (hdC : r.steps.download.status = .completed)
    (haC : r.steps.agentic_process.status = .completed) :
    ∀ (ids : List String) (st : MgrState × List (String × RunEntry))
      (r' : DocumentRecord),
      (∀ x ∈ ids, x = id) →
      alookup st.1.mem.documents id = some r' → dlAgFrame r r' →
      (ids.foldl (processOneFromJson env) st).1.cfg = st.1.cfg ∧
      (∀ p, p ≠ processedOutPath st.1.cfg.work_dir r →
        (ids.foldl (processOneFromJson env) st).1.fs.read p = st.1.fs.read p) := by
  intro ids
  induction ids with
  | nil =>
    intro st r' _ hr' hfr
    exact ⟨rfl, fun p _ => rfl⟩
  | cons doc_id rest ih =>
    intro st r' hall hr' hfr
    simp only [List.foldl_cons]
    have hid : doc_id = id := hall doc_id (List.mem_cons_self _ _)
    subst hid
    obtain ⟨⟨r1, hl1, hfr1⟩, hcfg1, _, _, hfs1⟩ :=
      processOne_self env st doc_id r r' hr' hfr hdC haC
    obtain ⟨hcfg2, hfs2⟩ :=
      ih (processOneFromJson env st doc_id) r1
        (fun x hx => hall x (List.mem_cons_of_mem _ hx)) hl1 hfr1
    refine ⟨hcfg2.trans hcfg1, ?_⟩
    intro p hp
    have hfs2' := hfs2 p (by rw [hcfg1]; exact hp)
    rw [hfs2']
    exact hfs1 p hp

theorem regStepJson_fst (acc : MgrState × List String) (info : DocInfo) :
    (regStepJson acc info).1 = (add_document_from_json acc.1 info).1 := by
  unfold regStepJson
  rcases h : add_document_from_json acc.1 info with ⟨m', oid⟩
  rcases oid with _ | did <;> rfl

theorem regStepJson_snd_mem (acc : MgrState × List String) (info : DocInfo)
    (x : String) (hx : x ∈ acc.2) : x ∈ (regStepJson acc info).2 := by
  unfold regStepJson
  rcases h : add_document_from_json acc.1 info with ⟨m', oid⟩
  rcases oid with _ | did
  · exact hx
  · exact List.mem_append.mpr (Or.inl hx)

theorem regStepJson_snd_some (acc : MgrState × List String) (info : DocInfo)
    (u nm : String) (hsrc : info.source = some u) (hnm : info.name = some nm) :
    (regStepJson acc info).2 = acc.2 ++ [acc.1.cfg.docIdHash u] := by
  unfold regStepJson
  have hid := add_json_id acc.1 info u nm hsrc hnm
  rcases h : add_document_from_json acc.1 info with ⟨m', oid⟩
  rw [h] at hid
  rcases oid with _ | did
  · simp at hid
  · have : did = acc.1.cfg.docIdHash u := Option.some.inj hid
    subst this
    rfl

theorem add_json_some_shape (m : MgrState) (info : DocInfo) (m' : MgrState)
    (did : String) (h : add_document_from_json m info = (m', some did)) :
    ∃ u, info.source = some u ∧ did = m.cfg.docIdHash u := by
  rcases hs : info.source with _ | u
  · simp [add_document_from_json, hs] at h
  · rcases hn : info.name with _ | nm
    · simp [add_document_from_json, hs, hn] at h
    · refine ⟨u, rfl, ?_⟩
      rcases hl : alookup m.mem.documents (m.cfg.docIdHash u) with _ | x <;>
      · simp [add_document_from_json, hs, hn, hl] at h
        exact h.2.symm

theorem regJson_fold : ∀ (docs : List DocInfo) (acc : MgrState × List String),
    (∀ id r, alookup acc.1.mem.documents id = some r →
      alookup (docs.foldl regStepJson acc).1.mem.documents id = some r) ∧
    (docs.foldl regStepJson acc).1.trace = acc.1.trace ∧
    (docs.foldl regStepJson acc).1.cfg = acc.1.cfg ∧
    (docs.foldl regStepJson acc).1.fs = acc.1.fs ∧
    (∀ x ∈ acc.2, x ∈ (docs.foldl regStepJson acc).2) := by
  intro docs
  induction docs with
  | nil =>
    intro acc
    exact ⟨fun id r h => h, rfl, rfl, rfl, fun x hx => hx⟩
  | cons info rest ih =>
    intro acc
    simp only [List.foldl_cons]
    obtain ⟨hpres, htr, hcfg, hfs, hmem⟩ := ih (regStepJson acc info)
    refine ⟨?_, ?_, ?_, ?_, ?_⟩
    · intro id r h
      apply hpres
      rw [regStepJson_fst]
      exact add_json_preserves acc.1 info id r h
    · rw [htr, regStepJson_fst, add_json_trace]
    · rw [hcfg, regStepJson_fst, add_json_cfg]
    · rw [hfs, regStepJson_fst, add_json_fs]
    · intro x hx
      exact hmem x (regStepJson_snd_mem acc info x hx)

theorem regJson_mem (u nm id : String) :
    ∀ (docs : List DocInfo) (acc : MgrState × List String) (info : DocInfo),
      info ∈ docs → info.source = some u → info.name = some nm →
      acc.1.cfg.docIdHash u = id →
      id ∈ (docs.foldl regStepJson acc).2 := by
  intro docs
  induction docs with
  | nil =>
    intro acc info hin
    cases hin
  | cons info0 rest ih =>
    intro acc info hin hsrc hnm hhash
    simp only [List.foldl_cons]
    rcases List.mem_cons.mp hin with rfl | hin'
    · have hsnd := regStepJson_snd_some acc info u nm hsrc hnm
      have hmem0 : id ∈ (regStepJson acc info).2 := by
        rw [hsnd, hhash]
        simp
      exact (regJson_fold rest (regStepJson acc info)).2.2.2.2 id hmem0
    · apply ih (regStepJson acc info0) info hin' hsrc hnm
      rw [regStepJson_fst, add_json_cfg]
      exact hhash

theorem regJson_all_ids (id : String) :
    ∀ (docs : List DocInfo) (acc : MgrState × List String),
      (∀ info ∈ docs, ∀ u, info.source = some u → acc.1.cfg.docIdHash u = id) →
      (∀ x ∈ acc.2, x = id) →
      ∀ x ∈ (docs.foldl regStepJson acc).2, x = id := by
  intro docs
  induction docs with
  | nil =>
    intro acc _ hacc
    exact hacc
  | cons info0 rest ih =>
    intro acc hall hacc
    simp only [List.foldl_cons]
    apply ih (regStepJson acc info0)
    · intro info hin u hsrc
      rw [regStepJson_fst, add_json_cfg]
      exact hall info (List.mem_cons_of_mem _ hin) u hsrc
    · intro x hx
      unfold regStepJson at hx
      rcases h : add_document_from_json acc.1 info0 with ⟨m', oid⟩
      try rw [h] at hx
      rcases oid with _ | did
      · exact hacc x hx
      · rcases List.mem_append.mp hx with hm | hm
        · exact hacc x hm
        · obtain ⟨u, hsrc, hdid⟩ := add_json_some_shape acc.1 info0 m' did h
          have hx' : x = did := by simpa using hm
          rw [hx', hdid]
          exact hall info0 (List.mem_cons_self _ _) u hsrc

theorem processOne_completed (env : Env) (st : MgrState × List (String × RunEntry))
    (id : String) (r : DocumentRecord)
    (hr : alookup st.1.mem.documents id = some r) (hc : r.status = .completed) :
    (processOneFromJson env st id).1 = st.1 := by
  simp [processOneFromJson, hr, hc]

theorem foldJson_completed (env : Env) (id : String) (r : DocumentRecord)
    (hc : r.status = .completed) :
    ∀ (ids : List String) (st : MgrState × List (String × RunEntry)),
      alookup st.1.mem.documents id = some r →
      alookup (ids.foldl (processOneFromJson env) st).1.mem.documents id = some r ∧
      ∃ d, (ids.foldl (processOneFromJson env) st).1.trace = st.1.trace ++ d ∧
        ∀ ev ∈ d, ev.docId ≠ id := by
  intro ids
  induction ids with
  | nil =>
    intro st hr
    exact ⟨hr, [], by simp, by simp⟩
  | cons doc_id rest ih =>
    intro st hr
    simp only [List.foldl_cons]
    by_cases h : doc_id = id
    · subst h
      have hst := processOne_completed env st doc_id r hr hc
      obtain ⟨hl2, d2, htr2, hd2⟩ := ih (processOneFromJson env st doc_id)
        (by rw [hst]; exact hr)
      exact ⟨hl2, d2, by rw [htr2, hst], hd2⟩
    · obtain ⟨hlk, _, d1, htr1, hd1⟩ := NeFrame_processOne env st doc_id id h
      obtain ⟨hl2, d2, htr2, hd2⟩ := ih (processOneFromJson env st doc_id)
        (by rw [hlk]; exact hr)
      refine ⟨hl2, d1 ++ d2, by rw [htr2, htr1, List.append_assoc], ?_⟩
      intro ev hev
      rcases List.mem_append.mp hev with hm | hm
      · rw [hd1 ev hm]
        exact h
      · exact hd2 ev hm

/-- Claim C7 (amended): the structured-record orchestrator
    (`process_all_documents_from_json`) recognizes a document whose overall
    status is already Completed and skips it entirely: its record is left
    exactly as it was and no stage executor is invoked for it (no trace
    event carries its id). -/
theorem claim_C7_amended (env : Env) (m : MgrState) (docs : List DocInfo)
    (id : String) (r : DocumentRecord)
    (hr : alookup m.mem.documents id = some r) (hc : r.status = .completed) :
    alookup (process_all_documents_from_json env m docs).1.mem.documents id = some r ∧
    ∃ d, (process_all_documents_from_json env m docs).1.trace = m.trace ++ d ∧
      ∀ ev ∈ d, ev.docId ≠ id := by
  obtain ⟨hpres, htrReg, _, _, _⟩ := regJson_fold docs (m, [])
  have hr0 : alookup (docs.foldl regStepJson (m, [])).1.mem.documents id = some r :=
    hpres id r hr
  obtain ⟨hl, d, htr2, hd⟩ := foldJson_completed env id r hc
    (docs.foldl regStepJson (m, [])).2 ((docs.foldl regStepJson (m, [])).1, []) hr0
  refine ⟨hl, d, ?_, hd⟩
  have htrE : ((docs.foldl regStepJson (m, [])).1,
      ([] : List (String × RunEntry))).1.trace = m.trace := htrReg
  rw [htrE] at htr2
  exact htr2

/-- Claim C6: given a stored document whose download and extract steps are
    Completed, whose structure (transform) step is Pending and whose
    overall status is not Completed, re-running the JSON orchestrator over
    any input: (a) leaves the record's download/extract step entries
    (statuses, timestamps) and their recorded artifact paths untouched;
    (b) invokes no stage executor for this document other than the
    transform stage — and does invoke it when the input contains a
    descriptor resolving to this document; and (c) when every descriptor in
    the input resolves to this document, the run writes no file other than
    at the structure-stage output path, so the download/extract artifacts
    on disk are untouched. -/
theorem claim_C6 (env : Env) (m : MgrState) (docs : List DocInfo) (id : String)
    (r : DocumentRecord)
    (hr : alookup m.mem.documents id = some r)
    (hdC : r.steps.download.status = .completed)
    (haC : r.steps.agentic_process.status = .completed)
    (htP : r.steps.transform.status = .pending)
    (hs : r.status ≠ .completed) :
    (∃ r', alookup (process_all_documents_from_json env m docs).1.mem.documents id
        = some r' ∧ dlAgFrame r r') ∧
    (∃ d, (process_all_documents_from_json env m docs).1.trace = m.trace ++ d ∧
      (∀ ev ∈ d, ev.docId = id → ev = Event.transformInvoked id) ∧
      ((∃ info ∈ docs, ∃ u nm, info.source = some u ∧ info.name = some nm ∧
          m.cfg.docIdHash u = id) → Event.transformInvoked id ∈ d)) ∧
    ((∀ info ∈ docs, ∀ u, info.source = some u → m.cfg.docIdHash u = id) →
      ∀ p, p ≠ processedOutPath m.cfg.work_dir r →
        (process_all_documents_from_json env m docs).1.fs.read p = m.fs.read p) := by
  obtain ⟨hpres, htrReg, hcfgReg, hfsReg, _⟩ := regJson_fold docs (m, [])
  have hr0 : alookup (docs.foldl regStepJson (m, [])).1.mem.documents id = some r :=
    hpres id r hr
  have ht' : r.steps.transform.status ≠ .completed := by
    rw [htP]
    decide
  obtain ⟨r'', d, hl, hfr, htrF, hd, _⟩ := foldJson_frame env id r hdC haC
    (docs.foldl regStepJson (m, [])).2 ((docs.foldl regStepJson (m, [])).1, []) r hr0
    (dlAgFrame_refl r)
  have htrE : ((docs.foldl regStepJson (m, [])).1,
      ([] : List (String × RunEntry))).1.trace = m.trace := htrReg
  rw [htrE] at htrF
  refine ⟨⟨r'', hl, hfr⟩, ⟨d, htrF, hd, ?_⟩, ?_⟩
  · rintro ⟨info, hin, u, nm, hsrc, hnm, hhash⟩
    have hmemids : id ∈ (docs.foldl regStepJson (m, [])).2 :=
      regJson_mem u nm id docs (m, []) info hin hsrc hnm hhash
    obtain ⟨d', htr', hmem'⟩ := foldJson_pristine env id r hdC haC hs ht'
      (docs.foldl regStepJson (m, [])).2 ((docs.foldl regStepJson (m, [])).1, []) hr0 hmemids
    rw [htrE] at htr'
    have hdd : d = d' := List.append_cancel_left (htrF.symm.trans htr')
    rw [hdd]
    exact hmem'
  · intro hall p hp
    have hallids : ∀ x ∈ (docs.foldl regStepJson (m, [])).2, x = id := by
      refine regJson_all_ids id docs (m, []) ?_ ?_
      · intro info hin u hsrc
        exact hall info hin u hsrc
      · intro x hx
        cases hx
    obtain ⟨hcfgF, hfsF⟩ := foldJson_fs env id r hdC haC
      (docs.foldl regStepJson (m, [])).2 ((docs.foldl regStepJson (m, [])).1, []) r
      hallids hr0 (dlAgFrame_refl r)
    have hpath : processedOutPath ((docs.foldl regStepJson (m, [])).1,
        ([] : List (String × RunEntry))).1.cfg.work_dir r
        = processedOutPath m.cfg.work_dir r := by
      have hcfgE : ((docs.foldl regStepJson (m, [])).1,
          ([] : List (String × RunEntry))).1.cfg = m.cfg := hcfgReg
      rw [hcfgE]
    have hread := hfsF p (by rw [hpath]; exact hp)
    have hfsE : ((docs.foldl regStepJson (m, [])).1,
        ([] : List (String × RunEntry))).1.fs = m.fs := hfsReg
    rw [hfsE] at hread
    exact hread

/-- A batch descriptor resolving to the sample resume document. -/
def infoC6 : DocInfo :=
  { source := some "http://h/a.pdf", name := some "a", document_type := none,
    access := none, language := none, country := none, publisher := none,
    sectionTag := none, output_folder := none }

theorem claim_C6_witness :
    (∃ r', alookup (process_all_documents_from_json envC5 mgrC5 [infoC6]).1.mem.documents
        "d1" = some r' ∧ dlAgFrame docC5 r') ∧
    (∃ d, (process_all_documents_from_json envC5 mgrC5 [infoC6]).1.trace
        = mgrC5.trace ++ d ∧
      (∀ ev ∈ d, ev.docId = "d1" → ev = Event.transformInvoked "d1") ∧
      ((∃ info ∈ [infoC6], ∃ u nm, info.source = some u ∧ info.name = some nm ∧
          mgrC5.cfg.docIdHash u = "d1") → Event.transformInvoked "d1" ∈ d)) ∧
    ((∀ info ∈ [infoC6], ∀ u, info.source = some u → mgrC5.cfg.docIdHash u = "d1") →
      ∀ p, p ≠ processedOutPath mgrC5.cfg.work_dir docC5 →
        (process_all_documents_from_json envC5 mgrC5 [infoC6]).1.fs.read p
          = mgrC5.fs.read p) :=
  claim_C6 envC5 mgrC5 [infoC6] "d1" docC5 rfl rfl rfl rfl (by decide)

/-- A record fully Completed from a prior run. -/
def docC7 : DocumentRecord :=
  { url := "http://h/a.pdf", original_filename := "a.pdf", metadata := Metadata.empty,
    status := .completed, created_at := 0,
    steps :=
      { download := { status := .completed, timestamp := some 1 },
        agentic_process := { status := .completed, timestamp := some 2 },
        transform := { status := .completed, timestamp := some 3 } },
    files := { download := some "work/pdfs/a.pdf",
               agentic_process := some "work/agentic_outputs/a.json",
               transform := some "work/pdf_processed/a.json" },
    errors := [] }

def mgrC7 : MgrState :=
  { cfg := { work_dir := "work", docIdHash := fun _ => "d1" },
    mem := { created_at := 0, updated_at := none, pipeline_version := "1.0",
             documents := [("d1", docC7)] },
    disk := none, fs := ⟨[]⟩, clock := 11, trace := [] }

/-- Claim C7 counterexample: the bare-locator orchestrator
    (`process_all_documents`) does not recognize an already-Completed
    document — it invokes the download stage executor for it (the trace
    records the invocation), relying on the stage's own artifact-existence
    check instead of skipping outright. -/
theorem claim_C7_counterexample :
    ((alookup mgrC7.mem.documents "d1").map (fun doc => doc.status)
      = some .completed) ∧
    Event.downloadInvoked "d1" ∈ (process_all_documents envC4 mgrC7 ["u1"]).1.trace := by
  decide

theorem claim_C7_witness :
    alookup (process_all_documents_from_json envC4 mgrC7 [infoC6]).1.mem.documents "d1"
      = some docC7 ∧
    ∃ d, (process_all_documents_from_json envC4 mgrC7 [infoC6]).1.trace
        = mgrC7.trace ++ d ∧
      ∀ ev ∈ d, ev.docId ≠ "d1" :=
  claim_C7_amended envC4 mgrC7 [infoC6] "d1" docC7 rfl rfl
